import Mathlib

/-!
Verification of the incremental movie-catalog synchronization job
(`crawl_movies.py`) against its natural-language specification.

The development shallowly embeds the script's data model and logic:

* JSON documents (Python dicts / lists / scalars as returned by
  `response.json()` and `json.loads`) are the inductive type `JVal`;
  Python dicts are association lists with unique keys in insertion order.
* `json.dumps(·, sort_keys := true, ensure_ascii := false)` is `dumpVal` /
  `dumps`; `json.loads` is `json_loads` (an executable parser).  Floating
  point numbers are outside the modelled domain (`JVal` has exact integers
  only); this is the only restriction of the JSON data model.
* The Redis store is an association list from key strings to the stored
  document text; the upstash client's serialize-on-write is modelled by
  storing `dumps` of the document (read paths re-parse, so the concrete
  stored formatting is observationally irrelevant to the script).
* Network calls are an explicit environment (`Env`): a page number maps to
  an optional listing document, a slug maps to an optional detail
  document, `none` modelling `requests.RequestException`.
* Every run-visible action is recorded in a trace of `Event`s so that
  temporal claims (early stop, no further fetches) are statements about
  the produced trace.
-/

set_option maxRecDepth 16384

/-- A JSON document: the values manipulated by the script.  Python dicts
are association lists (`obj`) with unique keys, preserving insertion
order; numbers are modelled as exact integers (floats are outside the
modelled domain). -/
inductive JVal where
  | null : JVal
  | bool (b : Bool) : JVal
  | num (n : Int) : JVal
  | str (s : String) : JVal
  | arr (elems : List JVal) : JVal
  | obj (fields : List (String × JVal)) : JVal

/-- A Python dict holding JSON values. -/
abbrev JObj := List (String × JVal)

/-- First-match association-list lookup: Python `d[k]` / `d.get(k)`. -/
def alookup {α : Type} (k : String) : List (String × α) → Option α
  | [] => none
  | (k', v) :: rest => if k' = k then some v else alookup k rest

/-- Update the binding of `k` in place (first match), appending at the end
when absent: Python `d[k] = v` on a dict with unique keys. -/
def aset {α : Type} (k : String) (v : α) : List (String × α) → List (String × α)
  | [] => [(k, v)]
  | (k', v') :: rest => if k' = k then (k, v) :: rest else (k', v') :: aset k v rest

/-- Python `d.get(k, default)`. -/
def jgetD (o : JObj) (k : String) (d : JVal) : JVal := (alookup k o).getD d

/-- Python truthiness of a JSON value (`bool(x)`). -/
def pyTruthy : JVal → Bool
  | .null => false
  | .bool b => b
  | .num n => n != 0
  | .str s => s != ""
  | .arr l => !l.isEmpty
  | .obj l => !l.isEmpty

/-- Left brace character (written with an escape). -/
def lbrace : Char := '\x7b'

/-- Right brace character (written with an escape). -/
def rbrace : Char := '\x7d'

/-- Decimal digit test on the code point. -/
def isDigitCh (c : Char) : Bool := 48 ≤ c.toNat && c.toNat ≤ 57

/-- Decimal digits of `n`, most significant first: the characters Python
prints for a non-negative integer. -/
def natChars (n : Nat) : List Char :=
  if _h : n < 10 then [Nat.digitChar n]
  else natChars (n / 10) ++ [Nat.digitChar (n % 10)]
termination_by n
decreasing_by exact Nat.div_lt_self (by omega) (by omega)

/-- Characters Python prints for an integer. -/
def intChars (n : Int) : List Char :=
  if n < 0 then '-' :: natChars n.natAbs else natChars n.toNat

/-- How `json.dumps(·, ensure_ascii := false)` renders one character of a
string: `"` and `\` and the short control escapes specially, remaining
control characters as `\u00xx`, everything else verbatim. -/
def escapeChar (c : Char) : List Char :=
  if c = '"' then ['\\', '"']
  else if c = '\\' then ['\\', '\\']
  else if c = '\n' then ['\\', 'n']
  else if c = '\r' then ['\\', 'r']
  else if c = '\t' then ['\\', 't']
  else if c = '\x08' then ['\\', 'b']
  else if c = '\x0c' then ['\\', 'f']
  else if c.toNat < 32 then
    ['\\', 'u', '0', '0', Nat.digitChar (c.toNat / 16), Nat.digitChar (c.toNat % 16)]
  else [c]

/-- `json.dumps` rendering of a string literal. -/
def dumpStringChars (s : String) : List Char :=
  '"' :: (s.data.map escapeChar).flatten ++ ['"']

/-- Code-point lexicographic order on character lists: how Python
compares strings when sorting dict keys. -/
def leChars : List Char → List Char → Bool
  | [], _ => true
  | _ :: _, [] => false
  | a :: as, b :: bs =>
      if a.toNat < b.toNat then true
      else if b.toNat < a.toNat then false
      else leChars as bs

/-- Code-point lexicographic order on strings. -/
def strLe (a b : String) : Bool := leChars a.data b.data

/-- Stable sorted insertion of a keyed pair: the new pair goes before the
first pair whose key is not smaller. -/
def insertPair {α : Type} (p : String × α) : List (String × α) → List (String × α)
  | [] => [p]
  | q :: rest => if strLe p.1 q.1 then p :: q :: rest else q :: insertPair p rest

/-- Sort an association list by key (stable insertion sort in Python's
string order): the effect of `sort_keys := true` on a dict's items. -/
def sortPairs {α : Type} : List (String × α) → List (String × α)
  | [] => []
  | p :: rest => insertPair p (sortPairs rest)

mutual
/-- `json.dumps(v, sort_keys := true, ensure_ascii := false)` with the
default `", "` / `": "` separators, as a character list. -/
def dumpVal : JVal → List Char
  | .null => "null".data
  | .bool true => "true".data
  | .bool false => "false".data
  | .num n => intChars n
  | .str s => dumpStringChars s
  | .arr l => '[' :: List.intercalate [',', ' '] (dumpElems l) ++ [']']
  | .obj l =>
      lbrace :: List.intercalate [',', ' '] ((sortPairs (dumpMembers l)).map Prod.snd) ++ [rbrace]

/-- Renderings of the elements of a JSON array, in order. -/
def dumpElems : List JVal → List (List Char)
  | [] => []
  | v :: vs => dumpVal v :: dumpElems vs

/-- Renderings of the members of a JSON object, keyed by the raw key so
they can be put in sorted key order. -/
def dumpMembers : List (String × JVal) → List (String × List Char)
  | [] => []
  | (k, v) :: rest =>
      (k, dumpStringChars k ++ ':' :: ' ' :: dumpVal v) :: dumpMembers rest
end

/-- The rendering of one object member, `"key": value`. -/
def memberChars (p : String × JVal) : List Char :=
  dumpStringChars p.1 ++ ':' :: ' ' :: dumpVal p.2

/-- `json.dumps(v, sort_keys := true, ensure_ascii := false)` as a string. -/
def dumps (v : JVal) : String := String.mk (dumpVal v)

/-- `compare_objects` (crawl_movies.py:81-89): equality of the two
sorted-keys serializations.  The source's `except` branch (returning
`False` for unserializable objects) is unreachable on `JVal`, which only
contains serializable documents. -/
def compare_objects (new_obj old_obj : JVal) : Bool :=
  dumps new_obj == dumps old_obj

mutual
/-- Canonical form of a JSON document: object keys recursively put in
sorted order.  `dumps` is constant on canonical classes, and two
documents compare `unchanged` exactly when their canonical forms agree. -/
def canon : JVal → JVal
  | .null => .null
  | .bool b => .bool b
  | .num n => .num n
  | .str s => .str s
  | .arr l => .arr (canonList l)
  | .obj l => .obj (sortPairs (canonFields l))

/-- Canonical forms of array elements, in order. -/
def canonList : List JVal → List JVal
  | [] => []
  | v :: vs => canon v :: canonList vs

/-- Canonical forms of object members, order preserved (sorting happens
in `canon`). -/
def canonFields : List (String × JVal) → List (String × JVal)
  | [] => []
  | (k, v) :: rest => (k, canon v) :: canonFields rest
end

/-- JSON insignificant whitespace. -/
def isWs (c : Char) : Bool := c = ' ' || c = '\t' || c = '\n' || c = '\r'

/-- Drop leading JSON whitespace. -/
def skipWs : List Char → List Char
  | [] => []
  | c :: rest => if isWs c then skipWs rest else c :: rest

/-- Value of one hexadecimal digit. -/
def hexVal (c : Char) : Option Nat :=
  if '0' ≤ c ∧ c ≤ '9' then some (c.toNat - 48)
  else if 'a' ≤ c ∧ c ≤ 'f' then some (c.toNat - 87)
  else if 'A' ≤ c ∧ c ≤ 'F' then some (c.toNat - 55)
  else none

/-- Meaning of a short escape `\e` in a JSON string literal. -/
def unescapeShort (c : Char) : Option Char :=
  if c = '"' then some '"'
  else if c = '\\' then some '\\'
  else if c = '/' then some '/'
  else if c = 'n' then some '\n'
  else if c = 'r' then some '\r'
  else if c = 't' then some '\t'
  else if c = 'b' then some '\x08'
  else if c = 'f' then some '\x0c'
  else none

/-- Parse the body of a JSON string literal (after the opening quote),
returning the decoded characters and the input after the closing quote.
Surrogate-pair escapes are outside the modelled domain and rejected. -/
def parseStringBody : List Char → Option (List Char × List Char)
  | [] => none
  | c :: rest =>
    if c = '"' then some ([], rest)
    else if c = '\\' then
      match rest with
      | [] => none
      | e :: rest2 =>
        if e = 'u' then
          match rest2 with
          | a :: b :: c2 :: d :: rest3 => do
              let ha ← hexVal a
              let hb ← hexVal b
              let hc ← hexVal c2
              let hd ← hexVal d
              let n := ((ha * 16 + hb) * 16 + hc) * 16 + hd
              if Nat.isValidChar n then
                let (s, r) ← parseStringBody rest3
                some (Char.ofNat n :: s, r)
              else none
          | _ => none
        else do
          let ch ← unescapeShort e
          let (s, r) ← parseStringBody rest2
          some (ch :: s, r)
    else do
      let (s, r) ← parseStringBody rest
      some (c :: s, r)

/-- Parse a run of decimal digits as a natural number. -/
def parseNatLit (cs : List Char) : Option (Nat × List Char) :=
  let ds := cs.takeWhile isDigitCh
  if ds.isEmpty then none
  else some (ds.foldl (fun acc c => acc * 10 + (c.toNat - 48)) 0, cs.dropWhile isDigitCh)

mutual
/-- Fueled JSON value parser: the model of `json.loads` (and the witness
that `dumpVal` is injective up to `canon`).  Floats and exponents are
outside the modelled domain. -/
def parseVal : Nat → List Char → Option (JVal × List Char)
  | 0, _ => none
  | fuel + 1, cs =>
    match skipWs cs with
    | [] => none
    | c :: rest =>
      if c = 'n' then
        match rest with
        | 'u' :: 'l' :: 'l' :: r => some (.null, r)
        | _ => none
      else if c = 't' then
        match rest with
        | 'r' :: 'u' :: 'e' :: r => some (.bool true, r)
        | _ => none
      else if c = 'f' then
        match rest with
        | 'a' :: 'l' :: 's' :: 'e' :: r => some (.bool false, r)
        | _ => none
      else if c = '"' then (parseStringBody rest).map (fun p => (.str (String.mk p.1), p.2))
      else if c = '[' then
        match skipWs rest with
        | [] => (parseElems fuel rest).map (fun p => (.arr p.1, p.2))
        | c2 :: r2 =>
          if c2 = ']' then some (.arr [], r2)
          else (parseElems fuel rest).map (fun p => (.arr p.1, p.2))
      else if c = '-' then (parseNatLit rest).map (fun p => (.num (-(p.1 : Int)), p.2))
      else if c = '\x7b' then
        match skipWs rest with
        | [] => (parseMembers fuel rest).map (fun p => (.obj p.1, p.2))
        | c2 :: r2 =>
          if c2 = '\x7d' then some (.obj [], r2)
          else (parseMembers fuel rest).map (fun p => (.obj p.1, p.2))
      else if isDigitCh c then
        (parseNatLit (c :: rest)).map (fun p => (.num (p.1 : Int), p.2))
      else none

/-- Parse the elements of a non-empty JSON array up to `]`. -/
def parseElems : Nat → List Char → Option (List JVal × List Char)
  | 0, _ => none
  | fuel + 1, cs => do
    let (v, r) ← parseVal fuel cs
    match skipWs r with
    | ',' :: r2 => do
        let (vs, r3) ← parseElems fuel r2
        some (v :: vs, r3)
    | ']' :: r2 => some ([v], r2)
    | _ => none

/-- Parse the members of a non-empty JSON object up to the closing brace. -/
def parseMembers : Nat → List Char → Option (List (String × JVal) × List Char)
  | 0, _ => none
  | fuel + 1, cs =>
    match skipWs cs with
    | '"' :: r => do
        let (kcs, r1) ← parseStringBody r
        match skipWs r1 with
        | ':' :: r2 => do
            let (v, r3) ← parseVal fuel r2
            match skipWs r3 with
            | ',' :: r4 => do
                let (ms, r5) ← parseMembers fuel r4
                some ((String.mk kcs, v) :: ms, r5)
            | '\x7d' :: r4 => some ([(String.mk kcs, v)], r4)
            | _ => none
        | _ => none
    | _ => none
end

/-- `json.loads`: parse a complete JSON document, failing on trailing
garbage.  Since every value parse consumes at least one character per
unit of fuel, `length + 1` fuel is never exhausted on an accepted input. -/
def json_loads (s : String) : Option JVal :=
  match parseVal (s.data.length + 1) s.data with
  | some (v, rest) => if (skipWs rest).isEmpty then some v else none
  | none => none

/-- Canonical combining class.  Fragment of the Unicode tables covering
the characters this development evaluates on: the combining diacritics
U+0300–U+0304 (class 230) and combining cedilla U+0327 (class 202); all
other characters are starters (class 0). -/
def ccc (c : Char) : Nat :=
  if 0x300 ≤ c.toNat ∧ c.toNat ≤ 0x304 then 230
  else if c = '̧' then 202
  else 0

/-- Full canonical decomposition of one character.  Fragment of the
Unicode tables: the precomposed Latin letters used by this development;
every other character decomposes to itself. -/
def decompChar (c : Char) : List Char :=
  if c = 'à' then ['a', '̀']
  else if c = 'á' then ['a', '́']
  else if c = 'é' then ['e', '́']
  else if c = 'Á' then ['A', '́']
  else if c = 'ç' then ['c', '̧']
  else [c]

/-- Primary canonical composition, the inverse of `decompChar` on the
modelled fragment. -/
def composePair (a b : Char) : Option Char :=
  if a = 'a' ∧ b = '̀' then some 'à'
  else if a = 'a' ∧ b = '́' then some 'á'
  else if a = 'e' ∧ b = '́' then some 'é'
  else if a = 'A' ∧ b = '́' then some 'Á'
  else if a = 'c' ∧ b = '̧' then some 'ç'
  else none

/-- Stable insertion of a combining mark into an ascending-by-class run:
`c` goes after every mark of combining class at most its own. -/
def insertByCcc (c : Char) : List Char → List Char
  | [] => [c]
  | d :: rest => if ccc d ≤ ccc c then d :: insertByCcc c rest else c :: d :: rest

/-- Stable sort of a run of combining marks by combining class. -/
def sortMarks : List Char → List Char
  | [] => []
  | c :: rest => insertByCcc c (sortMarks rest)

/-- Canonical ordering worker: accumulate the current run of non-starters
(most recent first), flushing it in stable class order at each starter. -/
def coAux : List Char → List Char → List Char
  | marks, [] => sortMarks marks.reverse
  | marks, c :: rest =>
      if ccc c = 0 then sortMarks marks.reverse ++ c :: coAux [] rest
      else coAux (c :: marks) rest

/-- Canonical ordering: each maximal run of non-starters is stably sorted
by combining class; starters are immovable. -/
def canonicalOrder (l : List Char) : List Char := coAux [] l

/-- Canonical composition pass (Unicode TR15): `starter` is the last
starter seen, `marks` the combining marks accumulated since it (most
recent first).  A mark combines with the starter when no accumulated mark
blocks it; a starter may combine with the previous starter when no marks
intervene. -/
def composeLoop (starter : Char) (marks : List Char) : List Char → List Char
  | [] => starter :: marks.reverse
  | c :: rest =>
    if ccc c = 0 then
      match marks, composePair starter c with
      | [], some comp => composeLoop comp [] rest
      | _, _ => starter :: marks.reverse ++ composeLoop c [] rest
    else
      let blocked := match marks with
        | [] => false
        | m :: _ => ccc c ≤ ccc m
      if blocked then composeLoop starter (c :: marks) rest
      else
        match composePair starter c with
        | some comp => composeLoop comp marks rest
        | none => composeLoop starter (c :: marks) rest

/-- Canonical composition of a canonically ordered sequence; leading
non-starters pass through unchanged. -/
def nfcCompose : List Char → List Char
  | [] => []
  | c :: rest => if ccc c = 0 then composeLoop c [] rest else c :: nfcCompose rest

/-- `unicodedata.normalize('NFC', s)`: full canonical decomposition,
canonical ordering, then canonical composition, over the modelled
fragment of the Unicode tables (characters outside the fragment are
inert starters). -/
def pyNFC (s : String) : String :=
  String.mk (nfcCompose (canonicalOrder ((s.data.map decompChar).flatten)))

/-- `str.isprintable` for one character.  Fragment of the Unicode
category tables: ASCII/Latin-1 controls, soft hyphen, the General
Punctuation format and separator characters (U+2000–U+200F,
U+2028–U+202E, U+205F–U+2064), U+3000 and U+FEFF are non-printable;
space is printable; all other modelled characters are printable. -/
def pyPrintable (c : Char) : Bool :=
  let n := c.toNat
  if c = ' ' then true
  else if n < 0x20 then false
  else if 0x7f ≤ n ∧ n ≤ 0xa0 then false
  else if n = 0xad then false
  else if 0x2000 ≤ n ∧ n ≤ 0x200f then false
  else if n = 0x2028 ∨ n = 0x2029 then false
  else if 0x202a ≤ n ∧ n ≤ 0x202e then false
  else if n = 0x205f ∨ n = 0x3000 then false
  else if 0x2060 ≤ n ∧ n ≤ 0x2064 then false
  else if n = 0xfeff then false
  else true

/-- Folding of the four typographic quote characters to their ASCII
counterparts (crawl_movies.py:96); all other characters unchanged. -/
def foldQuote (c : Char) : Char :=
  if c = '“' then '"'
  else if c = '”' then '"'
  else if c = '‘' then Char.ofNat 39
  else if c = '’' then Char.ofNat 39
  else c

/-- The string branch of `sanitize_string` (crawl_movies.py:95-97): NFC
normalization, quote folding (single-character `str.replace`, i.e. a
character map), then removal of non-printable characters. -/
def sanitizeStr (s : String) : String :=
  String.mk (((pyNFC s).data.map foldQuote).filter pyPrintable)

mutual
/-- Python `repr` of a JSON-like value (used by `str` on containers).
The single-quote-vs-escape subtleties of string repr are outside the
modelled domain (no theorem evaluates this branch). -/
def pyRepr : JVal → List Char
  | .null => ['N', 'o', 'n', 'e']
  | .bool true => ['T', 'r', 'u', 'e']
  | .bool false => ['F', 'a', 'l', 's', 'e']
  | .num n => intChars n
  | .str s => Char.ofNat 39 :: s.data ++ [Char.ofNat 39]
  | .arr l => '[' :: List.intercalate [',', ' '] (pyReprList l) ++ [']']
  | .obj l => lbrace :: List.intercalate [',', ' '] (pyReprFields l) ++ [rbrace]

/-- `repr` of list elements. -/
def pyReprList : List JVal → List (List Char)
  | [] => []
  | v :: vs => pyRepr v :: pyReprList vs

/-- `repr` of dict entries. -/
def pyReprFields : List (String × JVal) → List (List Char)
  | [] => []
  | (k, v) :: rest =>
      (Char.ofNat 39 :: k.data ++ Char.ofNat 39 :: ':' :: ' ' :: pyRepr v) :: pyReprFields rest
end

/-- Python `str()` of a JSON value. -/
def pyStr : JVal → String
  | .str s => s
  | v => String.mk (pyRepr v)

/-- `sanitize_string` (crawl_movies.py:91-97) on a JSON value: strings go
through the sanitization pipeline; `None` becomes the empty string; any
other non-string value is converted with `str`. -/
def sanitize_string : JVal → String
  | .str s => sanitizeStr s
  | .null => ""
  | v => pyStr v

/-- Cache key prefix (crawl_movies.py:39). -/
def MOVIE_DETAIL_CACHE_PREFIX : String := "movie:"

/-- Synopsis length bound (crawl_movies.py:43). -/
def MAX_CONTENT_LENGTH : Nat := 1000

/-- Whether a JSON value is a Python list (`isinstance(·, list)`). -/
def isListJ : JVal → Bool
  | .arr _ => true
  | _ => false

/-- `validate_movie_data` (crawl_movies.py:72-79): truthiness of `_id`,
`name`, `slug`, `content`; `category` / `country` must be lists when
present (`.get` with a `[]` default); at least one of `poster_url` /
`thumb_url` truthy. -/
def validate_movie_data (movie : JObj) : Bool :=
  pyTruthy (jgetD movie "_id" .null) && pyTruthy (jgetD movie "name" .null) &&
  pyTruthy (jgetD movie "slug" .null) && pyTruthy (jgetD movie "content" .null) &&
  isListJ (jgetD movie "category" (.arr [])) && isListJ (jgetD movie "country" (.arr [])) &&
  (pyTruthy (jgetD movie "poster_url" .null) || pyTruthy (jgetD movie "thumb_url" .null))

/-- One step of the sanitize loops (`if key in d: d[key] =
sanitize_string(d[key])`): replace the value under `k` by its sanitized
string when present, otherwise leave the dict alone. -/
def sanStep (acc : JObj) (k : String) : JObj :=
  match alookup k acc with
  | some v => aset k (.str (sanitize_string v)) acc
  | none => acc

/-- The four movie fields the sanitize loop touches, in source order
(crawl_movies.py:136). -/
def sanitizeKeys : List String := ["content", "name", "origin_name", "trailer_url"]

/-- The sanitize loop over the movie dict (crawl_movies.py:136-138): each
designated key, when present, is replaced by the sanitized string of its
value; absent keys are not added. -/
def sanitizeMovieFields (m : JObj) : JObj :=
  sanitizeKeys.foldl sanStep m

/-- Python `s[:n]` on a string: the first `n` code points. -/
def pySliceTo (s : String) (n : Nat) : String := String.mk (s.data.take n)

/-- The synopsis truncation step (crawl_movies.py:139-140): when
`content` is present and longer than `MAX_CONTENT_LENGTH` code points it
is cut to the first `MAX_CONTENT_LENGTH` code points plus `"..."`.
After the sanitize loop a present `content` is always a string, so the
non-string fallthrough is unreachable in the pipeline. -/
def truncateContent (m : JObj) : JObj :=
  match alookup "content" m with
  | some (.str s) =>
      if MAX_CONTENT_LENGTH < s.length then
        aset "content" (.str (pySliceTo s MAX_CONTENT_LENGTH ++ "...")) m
      else m
  | _ => m

/-- The whole movie-dict transformation of `cache_movie`: sanitize the
designated fields, then truncate the synopsis. -/
def movieTransform (m : JObj) : JObj := truncateContent (sanitizeMovieFields m)

/-- The two episode fields the episode loop touches, in source order
(crawl_movies.py:144-147). -/
def episodeKeys : List String := ["filename", "name"]

/-- The per-episode sanitization (crawl_movies.py:143-147): `filename`
and `name`, when present, are sanitized; other fields are untouched.
Non-dict episodes are outside the modelled domain (Python would raise)
and pass through unchanged. -/
def sanitizeEpisode : JVal → JVal
  | .obj e => .obj (episodeKeys.foldl sanStep e)
  | v => v

/-- The per-server step (crawl_movies.py:142-147): the episodes under
`server_data` (defaulting to `[]` when absent) are sanitized in place;
every other server field is untouched.  A non-list `server_data` and
non-dict servers are outside the modelled domain and pass through. -/
def sanitizeServer : JVal → JVal
  | .obj srv =>
      match alookup "server_data" srv with
      | some (.arr eps) => .obj (aset "server_data" (.arr (eps.map sanitizeEpisode)) srv)
      | _ => .obj srv
  | v => v

/-- Run-visible actions, in order of occurrence: listing-page requests,
detail requests, and cache reads/writes. -/
inductive Event where
  | listFetch (page : Nat)
  | detailFetch (slug : String)
  | cacheGet (key : String)
  | cacheSet (key : String)
deriving DecidableEq

/-- The Redis store: keys to stored document text. -/
abbrev Store := List (String × String)

/-- The upstream API: a page number yields a listing document, a slug
yields a detail document; `none` models `requests.RequestException`
(transport error, non-2xx status, or an unparseable body).  Non-object
response bodies are outside the modelled domain (the script would raise
`AttributeError`). -/
structure Env where
  listing : Nat → Option JObj
  detail : String → Option JObj

/-- `movie_item.get("slug", "")` restricted to the modelled domain:
absent, `None`, or a string (a present non-string truthy slug would make
Python raise at URL-quoting time). Falsy values collapse to `""`, which
`cache_movie` rejects just as `if not slug` does. -/
def slugOf (item : JObj) : String :=
  match alookup "slug" item with
  | some (.str s) => s
  | _ => ""

/-- Coerce a JSON value to a dict, as the script's `.get(k, {})` reads
expect; non-objects are outside the modelled domain. -/
def asObj : JVal → JObj
  | .obj o => o
  | _ => []

/-- Coerce a JSON value to a list; non-lists outside the modelled domain. -/
def asArr : JVal → List JVal
  | .arr l => l
  | _ => []

/-- The `full_data_to_cache` document built by `cache_movie`
(crawl_movies.py:149-154): upstream status and message, the transformed
movie dict, and the sanitized episodes sequence. -/
def fullDataOf (api_data : JObj) : JVal :=
  .obj
    [("status", jgetD api_data "status" .null),
     ("msg", jgetD api_data "msg" (.str "")),
     ("movie", .obj (movieTransform (asObj (jgetD api_data "movie" (.obj []))))),
     ("episodes", .arr ((asArr (jgetD api_data "episodes" (.arr []))).map sanitizeServer))]

/-- `cache_movie` (crawl_movies.py:99-177): fetch the detail document for
one listing item, normalize it, diff it against the cached document and
write it back when new or changed.  Returns the result string, the
updated store, and the trace of run-visible actions.  The store client
serializes the written document (modelled as `dumps`); store operations
do not fail in the model (the source's `except` path around them is
unreachable). -/
def cache_movie (env : Env) (st : Store) (movie_item : JObj) : String × Store × List Event :=
  let slug := slugOf movie_item
  if slug = "" then ("failed", st, [])
  else
    let cache_key := MOVIE_DETAIL_CACHE_PREFIX ++ slug
    match env.detail slug with
    | none => ("failed", st, [.detailFetch slug])
    | some api_data =>
      if !pyTruthy (jgetD api_data "status" (.bool false)) then
        ("failed", st, [.detailFetch slug])
      else
        if !validate_movie_data (asObj (jgetD api_data "movie" (.obj []))) then
          ("failed", st, [.detailFetch slug])
        else
          let full_data := fullDataOf api_data
          match (alookup cache_key st).bind json_loads with
          | some e =>
            if pyTruthy e && compare_objects full_data e then
              ("skipped", st, [.detailFetch slug, .cacheGet cache_key])
            else
              ("cached", aset cache_key (dumps full_data) st,
               [.detailFetch slug, .cacheGet cache_key, .cacheSet cache_key])
          | none =>
              ("cached", aset cache_key (dumps full_data) st,
               [.detailFetch slug, .cacheGet cache_key, .cacheSet cache_key])

/-- `api_data.get("items", [])` as a list of dicts; non-dict items are
outside the modelled domain. -/
def extractItems (api_data : JObj) : List JObj :=
  match jgetD api_data "items" (.arr []) with
  | .arr l => l.filterMap (fun v => match v with | .obj o => some o | _ => none)
  | _ => []

/-- The item loop of `crawl_movies` (crawl_movies.py:210-217): process
items in order; on the first `"skipped"` result stop at once (first
component `true`), otherwise continue with the updated store. -/
def processItems (env : Env) : Store → List JObj → Bool × Store × List Event
  | st, [] => (false, st, [])
  | st, item :: rest =>
    let r := cache_movie env st item
    if r.1 = "skipped" then (true, r.2.1, r.2.2)
    else
      let res := processItems env r.2.1 rest
      (res.1, res.2.1, r.2.2 ++ res.2.2)

/-- Outcome of a run: final store, trace of run-visible actions, and
whether the script reached one of its (always normal) exits.
`completed := false` occurs only on fuel exhaustion, a model artifact for
the unbounded `while True` loop. -/
structure RunResult where
  store : Store
  trace : List Event
  completed : Bool

/-- The page loop of `crawl_movies` (crawl_movies.py:184-227) starting at
`page`: fetch the listing, stop on request failure / falsy status / empty
items, otherwise process the items and either return early (first skipped
item) or continue with the next page.  Every exit of the Python function
is a normal return (exit status 0). -/
def crawlFrom (env : Env) : Nat → Nat → Store → RunResult
  | 0, _, st => ⟨st, [], false⟩
  | fuel + 1, page, st =>
    match env.listing page with
    | none => ⟨st, [.listFetch page], true⟩
    | some api_data =>
      if !pyTruthy (jgetD api_data "status" (.bool false)) then ⟨st, [.listFetch page], true⟩
      else
        let items := extractItems api_data
        let _totalPages := jgetD (asObj (jgetD api_data "pagination" (.obj []))) "totalPages" (.num 0)
        if items.isEmpty then ⟨st, [.listFetch page], true⟩
        else
          let r := processItems env st items
          if r.1 then ⟨r.2.1, .listFetch page :: r.2.2, true⟩
          else
            let r2 := crawlFrom env fuel (page + 1) r.2.1
            ⟨r2.store, .listFetch page :: r.2.2 ++ r2.trace, r2.completed⟩

/-- `crawl_movies` (crawl_movies.py:179-227): the page loop from page 1. -/
def crawl_movies (env : Env) (fuel : Nat) (st : Store) : RunResult :=
  crawlFrom env fuel 1 st

/-- The store writes among a trace. -/
def setEvents (tr : List Event) : List Event :=
  tr.filter (fun e => match e with | .cacheSet _ => true | _ => false)

mutual
/-- Structural size of a JSON document, the fuel bound for parsing its
serialization. -/
def sizeJ : JVal → Nat
  | .null => 1
  | .bool _ => 1
  | .num _ => 1
  | .str _ => 1
  | .arr l => 1 + sizeJList l
  | .obj l => 1 + sizeJFields l

/-- Structural size of array elements. -/
def sizeJList : List JVal → Nat
  | [] => 0
  | v :: vs => 1 + sizeJ v + sizeJList vs

/-- Structural size of object members. -/
def sizeJFields : List (String × JVal) → Nat
  | [] => 0
  | (_, v) :: r => 1 + sizeJ v + sizeJFields r
end

/-- Whether the input does not begin with a decimal digit (so a number
parse just before it cannot consume into it). -/
def notDigitStart : List Char → Bool
  | [] => true
  | c :: _ => !isDigitCh c

/-- Pairwise-distinct key strings. -/
def distinctKeys : List String → Bool
  | [] => true
  | k :: rest => !rest.contains k && distinctKeys rest

mutual
/-- Well-formedness of a document as a Python value: every object has
pairwise-distinct keys (dicts cannot have duplicates). -/
def noDupKeys : JVal → Bool
  | .null => true
  | .bool _ => true
  | .num _ => true
  | .str _ => true
  | .arr l => noDupKeysList l
  | .obj l => distinctKeys (l.map Prod.fst) && noDupKeysFields l

/-- `noDupKeys` over array elements. -/
def noDupKeysList : List JVal → Bool
  | [] => true
  | v :: vs => noDupKeys v && noDupKeysList vs

/-- `noDupKeys` over object member values. -/
def noDupKeysFields : List (String × JVal) → Bool
  | [] => true
  | (_, v) :: r => noDupKeys v && noDupKeysFields r
end

mutual
/-- Two documents are equal up to reordering of object keys: identical
scalars, pointwise-related arrays (order preserved), and objects whose
member lists agree up to recursively rekeyed values and a permutation. -/
inductive ReKey : JVal → JVal → Prop where
  | null : ReKey .null .null
  | bool (b : Bool) : ReKey (.bool b) (.bool b)
  | num (n : Int) : ReKey (.num n) (.num n)
  | str (s : String) : ReKey (.str s) (.str s)
  | arr {xs ys : List JVal} : ReKeyList xs ys → ReKey (.arr xs) (.arr ys)
  | obj {l m l' : List (String × JVal)} :
      ReKeyFields l m → m.Perm l' → ReKey (.obj l) (.obj l')

/-- Pointwise `ReKey` on array elements. -/
inductive ReKeyList : List JVal → List JVal → Prop where
  | nil : ReKeyList [] []
  | cons {x y : JVal} {xs ys : List JVal} :
      ReKey x y → ReKeyList xs ys → ReKeyList (x :: xs) (y :: ys)

/-- Pointwise key-preserving `ReKey` on object members. -/
inductive ReKeyFields : List (String × JVal) → List (String × JVal) → Prop where
  | nil : ReKeyFields [] []
  | cons {k : String} {x y : JVal} {l m : List (String × JVal)} :
      ReKey x y → ReKeyFields l m → ReKeyFields ((k, x) :: l) ((k, y) :: m)
end

/-- The field under `k` is present and a non-empty string. -/
def presentNonemptyStr (m : JObj) (k : String) : Bool :=
  match alookup k m with
  | some (.str s) => s != ""
  | _ => false

/-- The field under `k` is present and is a list. -/
def presentList (m : JObj) (k : String) : Bool :=
  match alookup k m with
  | some (.arr _) => true
  | _ => false

/-- The field under `k` is absent or is a list. -/
def listOrAbsent (m : JObj) (k : String) : Bool :=
  match alookup k m with
  | none => true
  | some (.arr _) => true
  | _ => false

/-- Validation as claim C6 words it: identifier, name, slug and synopsis
present and non-empty; `category` and `country` actually lists (possibly
empty); at least one of the two image URLs present and non-empty.  Kept
verbatim from the claim so it can be compared against the source's
`validate_movie_data`. -/
def claimValidate (m : JObj) : Bool :=
  presentNonemptyStr m "_id" && presentNonemptyStr m "name" &&
  presentNonemptyStr m "slug" && presentNonemptyStr m "content" &&
  presentList m "category" && presentList m "country" &&
  (presentNonemptyStr m "poster_url" || presentNonemptyStr m "thumb_url")

/-- Validation as amended: `category` / `country` may also be absent
(the source's `.get(k, [])` default makes absence pass the isinstance
check). -/
def amendedValidate (m : JObj) : Bool :=
  presentNonemptyStr m "_id" && presentNonemptyStr m "name" &&
  presentNonemptyStr m "slug" && presentNonemptyStr m "content" &&
  listOrAbsent m "category" && listOrAbsent m "country" &&
  (presentNonemptyStr m "poster_url" || presentNonemptyStr m "thumb_url")

/-- The field under `k` is absent or holds a string (the shape the
upstream API documents for the text fields). -/
def strOrAbsent (m : JObj) (k : String) : Prop :=
  alookup k m = none ∨ ∃ s, alookup k m = some (.str s)

/-- Remove every binding of `k`: a store in which the key was never
written. -/
def aremove {α : Type} (k : String) : List (String × α) → List (String × α)
  | [] => []
  | (k', v) :: rest => if k' = k then aremove k rest else (k', v) :: aremove k rest

/-- Environment in which every request fails. -/
def envEmpty : Env := ⟨fun _ => none, fun _ => none⟩

/-- Movie dict fixture: a valid movie without `category` / `country`. -/
def movC3 : JObj :=
  [("_id", .str "mid1"), ("name", .str "Name"), ("slug", .str "sl"),
   ("content", .str "txt"), ("poster_url", .str "p.jpg")]

/-- Episode fixture with a stream link. -/
def epC3 : JVal :=
  .obj [("name", .str "Ep 1"), ("slug", .str "e1"), ("filename", .str "f1"),
        ("link_m3u8", .str "http://x/e1.m3u8")]

/-- Server fixture holding one episode. -/
def serverC3 : JVal :=
  .obj [("server_name", .str "S1"), ("server_data", .arr [epC3])]

/-- Detail document fixture for slug `sl`. -/
def detailC3 : JObj :=
  [("status", .bool true), ("msg", .str ""), ("movie", .obj movC3),
   ("episodes", .arr [serverC3])]

/-- Listing item fixture for slug `sl`. -/
def itemC3 : JObj := [("_id", .str "mid1"), ("slug", .str "sl")]

/-- Environment serving only the detail document for `sl`. -/
def envC3 : Env := ⟨fun _ => none, fun s => if s = "sl" then some detailC3 else none⟩

/-- Environment whose first page is a successful empty listing. -/
def envNoItems : Env :=
  ⟨fun p => if p = 1 then some [("status", .bool true), ("items", .arr [])] else none,
   fun _ => none⟩

/-- Movie dict fixture for slug `s2`. -/
def movW2 : JObj :=
  [("_id", .str "id2"), ("name", .str "N2"), ("slug", .str "s2"),
   ("content", .str "c2"), ("poster_url", .str "p2")]

/-- Detail document fixture for slug `s2`. -/
def detailW2 : JObj :=
  [("status", .bool true), ("msg", .str ""), ("movie", .obj movW2), ("episodes", .arr [])]

/-- First listing page fixture: items `s1`, `s2`, `s3`. -/
def apiC1 : JObj :=
  [("status", .bool true),
   ("items", .arr [.obj [("slug", .str "s1")], .obj [("slug", .str "s2")],
                   .obj [("slug", .str "s3")]]),
   ("pagination", .obj [("totalPages", .num 7)])]

/-- Environment for the early-stop scenario: page 1 lists `s1 s2 s3`,
only the detail of `s2` is served (so `s1` fails, `s2` is found
unchanged, `s3` would fail if it were ever fetched). -/
def envC1 : Env :=
  ⟨fun p => if p = 1 then some apiC1 else none,
   fun s => if s = "s2" then some detailW2 else none⟩

/-- Store fixture already holding the document the run would build for
`s2`, so that `s2` diffs as unchanged. -/
def stC1 : Store := [("movie:s2", dumps (fullDataOf detailW2))]

/-- A base letter, a zero-width non-joiner (non-printable), and a
combining acute accent: sanitization removes the joiner, after which the
letter and the accent become composable. -/
def zwnjStr : String := "a\u200C\u0301"

/-- The round-trip property of one document: parsing its serialization
(after any leading whitespace), with enough fuel and a non-digit
continuation, yields its canonical form and the untouched continuation. -/
def RoundVal (v : JVal) : Prop :=
  ∀ (fuel : Nat) (cs rest : List Char), sizeJ v ≤ fuel → notDigitStart rest = true →
    skipWs cs = dumpVal v ++ rest → parseVal fuel cs = some (canon v, rest)

/-! ## Basic lemmas about the store and string primitives -/

theorem alookup_aset_self {α : Type} (k : String) (v : α) (l : List (String × α)) :
    alookup k (aset k v l) = some v := by
  induction l with
  | nil => simp [aset, alookup]
  | cons p t ih =>
    obtain ⟨k', v'⟩ := p
    by_cases h : k' = k
    · simp [aset, alookup, h]
    · simp [aset, alookup, h, ih]

theorem alookup_aset_ne {α : Type} {k k' : String} (h : k ≠ k') (v : α)
    (l : List (String × α)) : alookup k (aset k' v l) = alookup k l := by
  induction l with
  | nil =>
    have : ¬(k' = k) := fun hh => h hh.symm
    simp [aset, alookup, this]
  | cons p t ih =>
    obtain ⟨k'', v''⟩ := p
    by_cases h2 : k'' = k'
    · subst h2
      have hk : ¬(k'' = k) := fun hh => h hh.symm
      simp [aset, alookup, hk]
    · by_cases h3 : k'' = k
      · subst h3
        simp [aset, alookup, h, h2]
      · simp [aset, alookup, h2, h3, ih]

theorem alookup_aremove_self {α : Type} (k : String) (l : List (String × α)) :
    alookup k (aremove k l) = none := by
  induction l with
  | nil => simp [aremove, alookup]
  | cons p t ih =>
    obtain ⟨k', v'⟩ := p
    by_cases h : k' = k
    · simp [aremove, h, ih]
    · simp [aremove, alookup, h, ih]

theorem string_mk_length (l : List Char) : (String.mk l).length = l.length := rfl

theorem string_mk_append (a b : List Char) :
    String.mk a ++ String.mk b = String.mk (a ++ b) := rfl

theorem string_length_append (a b : String) : (a ++ b).length = a.length + b.length := by
  cases a with
  | mk da =>
    cases b with
    | mk db => rw [string_mk_append, string_mk_length, string_mk_length, string_mk_length,
        List.length_append]

theorem truncateContent_of_content (m : JObj) (s : String)
    (hc : alookup "content" m = some (.str s)) :
    truncateContent m =
      if MAX_CONTENT_LENGTH < s.length then
        aset "content" (.str (pySliceTo s MAX_CONTENT_LENGTH ++ "...")) m
      else m := by
  unfold truncateContent
  rw [hc]

theorem processItems_cons (env : Env) (st : Store) (item : JObj) (rest : List JObj) :
    processItems env st (item :: rest) =
      (if (cache_movie env st item).1 = "skipped" then
        (true, (cache_movie env st item).2.1, (cache_movie env st item).2.2)
      else
        ((processItems env (cache_movie env st item).2.1 rest).1,
         (processItems env (cache_movie env st item).2.1 rest).2.1,
         (cache_movie env st item).2.2 ++
           (processItems env (cache_movie env st item).2.1 rest).2.2)) := rfl

/-! ## Claim C5: synopsis truncation -/

/-- Claim C5: after sanitization, a `content` value longer than
`MAX_CONTENT_LENGTH` (1000) code points is replaced by exactly its first
1000 code points followed by the `"..."` marker (total length 1003), and
a `content` of at most 1000 code points is left untouched. -/
theorem c5_truncation (m : JObj) (s : String)
    (hc : alookup "content" m = some (.str s)) :
    (MAX_CONTENT_LENGTH < s.length →
      alookup "content" (truncateContent m) =
        some (.str (pySliceTo s MAX_CONTENT_LENGTH ++ "...")) ∧
      (pySliceTo s MAX_CONTENT_LENGTH).length = MAX_CONTENT_LENGTH ∧
      (pySliceTo s MAX_CONTENT_LENGTH ++ "...").length = MAX_CONTENT_LENGTH + 3) ∧
    (s.length ≤ MAX_CONTENT_LENGTH → truncateContent m = m) := by
  have hlen : (pySliceTo s MAX_CONTENT_LENGTH).length = min MAX_CONTENT_LENGTH s.length := by
    unfold pySliceTo
    rw [string_mk_length, List.length_take]
    rfl
  constructor
  · intro h
    refine ⟨?_, ?_, ?_⟩
    · rw [truncateContent_of_content m s hc, if_pos h]
      exact alookup_aset_self _ _ _
    · omega
    · rw [string_length_append]
      have h3 : ("..." : String).length = 3 := rfl
      omega
  · intro h
    rw [truncateContent_of_content m s hc, if_neg (Nat.not_lt.mpr h)]

/-- Witness for C5 at a 1500-character synopsis and at a 500-character
one. -/
theorem c5_truncation_witness :
    (alookup "content"
        (truncateContent [("content", JVal.str (String.mk (List.replicate 1500 'a')))]) =
      some (.str (pySliceTo (String.mk (List.replicate 1500 'a')) MAX_CONTENT_LENGTH ++ "...")) ∧
      (pySliceTo (String.mk (List.replicate 1500 'a')) MAX_CONTENT_LENGTH).length =
        MAX_CONTENT_LENGTH ∧
      (pySliceTo (String.mk (List.replicate 1500 'a')) MAX_CONTENT_LENGTH ++ "...").length =
        MAX_CONTENT_LENGTH + 3) ∧
    truncateContent [("content", JVal.str (String.mk (List.replicate 500 'b')))] =
      [("content", JVal.str (String.mk (List.replicate 500 'b')))] := by
  have hlonglen : (String.mk (List.replicate 1500 'a')).length = 1500 := by
    rw [string_mk_length, List.length_replicate]
  have hshortlen : (String.mk (List.replicate 500 'b')).length = 500 := by
    rw [string_mk_length, List.length_replicate]
  have hM : MAX_CONTENT_LENGTH = 1000 := rfl
  constructor
  · exact (c5_truncation [("content", JVal.str (String.mk (List.replicate 1500 'a')))]
      (String.mk (List.replicate 1500 'a')) (by simp [alookup])).1 (by omega)
  · exact (c5_truncation [("content", JVal.str (String.mk (List.replicate 500 'b')))]
      (String.mk (List.replicate 500 'b')) (by simp [alookup])).2 (by omega)

/-! ## Claim C9: items without a slug -/

/-- Claim C9: a listing item whose `slug` field is absent or empty makes
`cache_movie` return `"failed"` with no detail fetch and no store read
or write (empty trace, unchanged store), and the item loop continues
with the remaining items exactly as if the item were not there. -/
theorem c9_missing_slug (env : Env) (st : Store) (item : JObj) (rest : List JObj)
    (h : alookup "slug" item = none ∨ alookup "slug" item = some (.str "")) :
    cache_movie env st item = ("failed", st, []) ∧
    processItems env st (item :: rest) = processItems env st rest := by
  have hs : slugOf item = "" := by
    rcases h with h | h <;> simp [slugOf, h]
  have h1 : cache_movie env st item = ("failed", st, []) := by
    unfold cache_movie
    rw [hs]
    simp
  refine ⟨h1, ?_⟩
  rw [processItems_cons, h1]
  simp

/-- Witness for C9: a slugless item fails with an empty trace and the
loop proceeds to the next item. -/
theorem c9_missing_slug_witness :
    cache_movie envEmpty [] [("name", JVal.str "x")] = ("failed", [], []) ∧
    processItems envEmpty [] ([("name", JVal.str "x")] :: [[("slug", JVal.str "s")]]) =
      processItems envEmpty [] [[("slug", JVal.str "s")]] :=
  c9_missing_slug envEmpty [] [("name", JVal.str "x")] [[("slug", JVal.str "s")]]
    (Or.inl (by simp [alookup]))

/-! ## The shape of cache_movie results -/

theorem cache_movie_shape (env : Env) (st : Store) (it : JObj) :
    cache_movie env st it = ("failed", st, []) ∨
    cache_movie env st it = ("failed", st, [.detailFetch (slugOf it)]) ∨
    cache_movie env st it =
      ("skipped", st,
       [.detailFetch (slugOf it), .cacheGet (MOVIE_DETAIL_CACHE_PREFIX ++ slugOf it)]) ∨
    ∃ d : JVal, cache_movie env st it =
      ("cached", aset (MOVIE_DETAIL_CACHE_PREFIX ++ slugOf it) (dumps d) st,
       [.detailFetch (slugOf it), .cacheGet (MOVIE_DETAIL_CACHE_PREFIX ++ slugOf it),
        .cacheSet (MOVIE_DETAIL_CACHE_PREFIX ++ slugOf it)]) := by
  unfold cache_movie
  by_cases h1 : slugOf it = ""
  · rw [if_pos h1]
    exact Or.inl rfl
  · rw [if_neg h1]
    dsimp only
    cases henv : env.detail (slugOf it) with
    | none => exact Or.inr (Or.inl rfl)
    | some api =>
      dsimp only
      by_cases h2 : !pyTruthy (jgetD api "status" (.bool false))
      · rw [if_pos h2]
        exact Or.inr (Or.inl rfl)
      · rw [if_neg h2]
        by_cases h3 : !validate_movie_data (asObj (jgetD api "movie" (.obj [])))
        · rw [if_pos h3]
          exact Or.inr (Or.inl rfl)
        · rw [if_neg h3]
          cases hex : (alookup (MOVIE_DETAIL_CACHE_PREFIX ++ slugOf it) st).bind json_loads with
          | none => exact Or.inr (Or.inr (Or.inr ⟨fullDataOf api, rfl⟩))
          | some e =>
            dsimp only
            by_cases h4 : pyTruthy e && compare_objects (fullDataOf api) e
            · rw [if_pos h4]
              exact Or.inr (Or.inr (Or.inl rfl))
            · rw [if_neg h4]
              exact Or.inr (Or.inr (Or.inr ⟨fullDataOf api, rfl⟩))

/-! ## Claim C3: which keys are written -/

/-- Claim C3 as amended: for an item whose diff outcome is new/changed,
`cache_movie` writes only the primary record key `movie:{slug}`; no
identifier-alias key and no per-episode stream keys are derived or
written (the script has no other `set` call).  Every write in any
`cache_movie` trace targets the primary key, and a `"cached"` result
performs exactly one write, to the primary key. -/
theorem c3_only_primary_write (env : Env) (st : Store) (it : JObj) :
    (∀ k : String, Event.cacheSet k ∈ (cache_movie env st it).2.2 →
      k = MOVIE_DETAIL_CACHE_PREFIX ++ slugOf it) ∧
    ((cache_movie env st it).1 = "cached" →
      setEvents (cache_movie env st it).2.2 =
        [Event.cacheSet (MOVIE_DETAIL_CACHE_PREFIX ++ slugOf it)]) := by
  rcases cache_movie_shape env st it with h | h | h | ⟨d, h⟩ <;> rw [h] <;>
    constructor <;> simp [setEvents]

/-- Counterexample to claim C3 as stated: a concrete item with an
identifier and one episode, diffed `new` (empty store), for which the
claim demands a primary write, an alias-key write and a stream-key
write; the code performs exactly one store write, to the primary key. -/
theorem c3_counterexample :
    cache_movie envC3 [] itemC3 =
      ("cached", [("movie:sl", dumps (fullDataOf detailC3))],
       [Event.detailFetch "sl", Event.cacheGet "movie:sl", Event.cacheSet "movie:sl"]) ∧
    setEvents (cache_movie envC3 [] itemC3).2.2 = [Event.cacheSet "movie:sl"] := by
  constructor
  · rfl
  · rfl

/-! ## Claim C6: validation -/

theorem cache_movie_invalid (env : Env) (st : Store) (it : JObj) (api : JObj)
    (h1 : slugOf it ≠ "") (h2 : env.detail (slugOf it) = some api)
    (h3 : validate_movie_data (asObj (jgetD api "movie" (.obj []))) = false) :
    cache_movie env st it = ("failed", st, [.detailFetch (slugOf it)]) := by
  unfold cache_movie
  rw [if_neg h1]
  dsimp only
  rw [h2]
  dsimp only
  by_cases hs : !pyTruthy (jgetD api "status" (.bool false))
  · rw [if_pos hs]
  · rw [if_neg hs, if_pos (by rw [h3]; rfl)]

/-- Claim C6 as amended: under the upstream typing of the text fields
(absent or string), `validate_movie_data` agrees exactly with the
predicate "identifier, name, slug and synopsis present and non-empty;
`category` and `country` lists **when present** (absence is accepted);
at least one of the two image URLs present and non-empty"; and an item
whose fetched movie fails validation makes `cache_movie` return
`"failed"` with no store write and an unchanged store. -/
theorem c6_validation (m : JObj)
    (t1 : strOrAbsent m "_id") (t2 : strOrAbsent m "name")
    (t3 : strOrAbsent m "slug") (t4 : strOrAbsent m "content")
    (t5 : strOrAbsent m "poster_url") (t6 : strOrAbsent m "thumb_url") :
    validate_movie_data m = amendedValidate m ∧
    (∀ (env : Env) (st : Store) (it : JObj) (api : JObj), slugOf it ≠ "" →
      env.detail (slugOf it) = some api →
      validate_movie_data (asObj (jgetD api "movie" (.obj []))) = false →
      cache_movie env st it = ("failed", st, [.detailFetch (slugOf it)]) ∧
      setEvents (cache_movie env st it).2.2 = []) := by
  constructor
  · have e1 : pyTruthy (jgetD m "_id" .null) = presentNonemptyStr m "_id" := by
      rcases t1 with h | ⟨s, h⟩ <;> simp [jgetD, pyTruthy, presentNonemptyStr, h]
    have e2 : pyTruthy (jgetD m "name" .null) = presentNonemptyStr m "name" := by
      rcases t2 with h | ⟨s, h⟩ <;> simp [jgetD, pyTruthy, presentNonemptyStr, h]
    have e3 : pyTruthy (jgetD m "slug" .null) = presentNonemptyStr m "slug" := by
      rcases t3 with h | ⟨s, h⟩ <;> simp [jgetD, pyTruthy, presentNonemptyStr, h]
    have e4 : pyTruthy (jgetD m "content" .null) = presentNonemptyStr m "content" := by
      rcases t4 with h | ⟨s, h⟩ <;> simp [jgetD, pyTruthy, presentNonemptyStr, h]
    have e5 : pyTruthy (jgetD m "poster_url" .null) = presentNonemptyStr m "poster_url" := by
      rcases t5 with h | ⟨s, h⟩ <;> simp [jgetD, pyTruthy, presentNonemptyStr, h]
    have e6 : pyTruthy (jgetD m "thumb_url" .null) = presentNonemptyStr m "thumb_url" := by
      rcases t6 with h | ⟨s, h⟩ <;> simp [jgetD, pyTruthy, presentNonemptyStr, h]
    have ec : isListJ (jgetD m "category" (.arr [])) = listOrAbsent m "category" := by
      cases hcat : alookup "category" m with
      | none => simp [jgetD, listOrAbsent, isListJ, hcat]
      | some v => cases v <;> simp [jgetD, listOrAbsent, isListJ, hcat]
    have eo : isListJ (jgetD m "country" (.arr [])) = listOrAbsent m "country" := by
      cases hco : alookup "country" m with
      | none => simp [jgetD, listOrAbsent, isListJ, hco]
      | some v => cases v <;> simp [jgetD, listOrAbsent, isListJ, hco]
    unfold validate_movie_data amendedValidate
    rw [e1, e2, e3, e4, e5, e6, ec, eo]
  · intro env st it api h1 h2 h3
    have := cache_movie_invalid env st it api h1 h2 h3
    exact ⟨this, by rw [this]; rfl⟩

/-- Counterexample to claim C6 as stated: a movie with no `category` and
no `country` field at all passes the source's validation, while the
claim's "the category and country fields are actually lists" requires
them to be present. -/
theorem c6_counterexample :
    validate_movie_data movC3 = true ∧ claimValidate movC3 = false := by
  constructor <;> rfl

/-- Witness for C6: the amended equivalence evaluated at the fixture
movie, and the no-write consequence at a concrete invalid detail
document. -/
theorem c6_validation_witness :
    (validate_movie_data movC3 = amendedValidate movC3) ∧
    (cache_movie ⟨fun _ => none, fun s => if s = "sl" then some [("status", JVal.bool true)] else none⟩
        [] itemC3 = ("failed", [], [Event.detailFetch "sl"]) ∧
      setEvents (cache_movie ⟨fun _ => none,
        fun s => if s = "sl" then some [("status", JVal.bool true)] else none⟩ [] itemC3).2.2 = []) := by
  refine ⟨?_, ?_⟩
  · exact (c6_validation movC3 (Or.inr ⟨_, rfl⟩) (Or.inr ⟨_, rfl⟩) (Or.inr ⟨_, rfl⟩)
      (Or.inr ⟨_, rfl⟩) (Or.inr ⟨_, rfl⟩) (Or.inl rfl)).1
  · exact (c6_validation movC3 (Or.inr ⟨_, rfl⟩) (Or.inr ⟨_, rfl⟩) (Or.inr ⟨_, rfl⟩)
      (Or.inr ⟨_, rfl⟩) (Or.inr ⟨_, rfl⟩) (Or.inl rfl)).2
      ⟨fun _ => none, fun s => if s = "sl" then some [("status", JVal.bool true)] else none⟩
      [] itemC3 [("status", JVal.bool true)] (by decide) rfl rfl

/-! ## Claim C10: the sanitize passes touch only the designated fields -/

theorem alookup_sanStep_ne {k k' : String} (h : k ≠ k') (m : JObj) :
    alookup k (sanStep m k') = alookup k m := by
  unfold sanStep
  cases h' : alookup k' m with
  | none => rfl
  | some v => exact alookup_aset_ne h _ m

theorem alookup_sanStep_none {k : String} (m : JObj) (k' : String)
    (h : alookup k m = none) : alookup k (sanStep m k') = none := by
  by_cases hk : k = k'
  · subst hk
    unfold sanStep
    rw [h]
    exact h
  · rw [alookup_sanStep_ne hk]
    exact h

theorem alookup_foldl_sanStep_ne (ks : List String) (m : JObj) (k : String)
    (h : k ∉ ks) : alookup k (ks.foldl sanStep m) = alookup k m := by
  induction ks generalizing m with
  | nil => rfl
  | cons k' t ih =>
    have h1 : k ≠ k' := fun hh => h (hh ▸ List.mem_cons_self k' t)
    have h2 : k ∉ t := fun hh => h (List.mem_cons_of_mem _ hh)
    rw [List.foldl_cons, ih _ h2, alookup_sanStep_ne h1]

theorem alookup_foldl_sanStep_none (ks : List String) (m : JObj) (k : String)
    (h : alookup k m = none) : alookup k (ks.foldl sanStep m) = none := by
  induction ks generalizing m with
  | nil => exact h
  | cons k' t ih =>
    rw [List.foldl_cons]
    exact ih _ (alookup_sanStep_none m k' h)

theorem alookup_truncateContent_ne (m : JObj) (k : String) (h : k ≠ "content") :
    alookup k (truncateContent m) = alookup k m := by
  unfold truncateContent
  cases hc : alookup "content" m with
  | none => rfl
  | some v =>
    cases v with
    | str s =>
      dsimp only
      by_cases hl : MAX_CONTENT_LENGTH < s.length
      · rw [if_pos hl]
        exact alookup_aset_ne h _ m
      · rw [if_neg hl]
    | null => rfl
    | bool b => rfl
    | num n => rfl
    | arr l => rfl
    | obj l => rfl

/-- Claim C10: the movie transformation modifies only `content`, `name`,
`origin_name`, `trailer_url` and the per-episode transformation only
`filename` / `name`; a designated field absent from the raw dict remains
absent (never added), every other movie key, server key (besides
`server_data`) and episode key is passed through unchanged. -/
theorem c10_sanitize_frame :
    (∀ (m : JObj) (k : String), k ∉ sanitizeKeys →
      alookup k (movieTransform m) = alookup k m) ∧
    (∀ (m : JObj) (k : String), alookup k m = none →
      alookup k (movieTransform m) = none) ∧
    (∀ (srv : JObj) (k : String), k ≠ "server_data" →
      alookup k (asObj (sanitizeServer (.obj srv))) = alookup k srv) ∧
    (∀ (e : JObj) (k : String), k ∉ episodeKeys →
      alookup k (asObj (sanitizeEpisode (.obj e))) = alookup k e) ∧
    (∀ (e : JObj) (k : String), alookup k e = none →
      alookup k (asObj (sanitizeEpisode (.obj e))) = none) := by
  have hframe : ∀ (m : JObj) (k : String), k ∉ sanitizeKeys →
      alookup k (movieTransform m) = alookup k m := by
    intro m k h
    have hc : k ≠ "content" := by
      intro hh
      exact h (hh ▸ (by decide : "content" ∈ sanitizeKeys))
    unfold movieTransform sanitizeMovieFields
    rw [alookup_truncateContent_ne _ _ hc, alookup_foldl_sanStep_ne _ _ _ h]
  refine ⟨hframe, ?_, ?_, ?_, ?_⟩
  · intro m k h
    unfold movieTransform sanitizeMovieFields
    have habs : alookup k (sanitizeKeys.foldl sanStep m) = none :=
      alookup_foldl_sanStep_none _ _ _ h
    by_cases hc : k = "content"
    · subst hc
      unfold truncateContent
      rw [habs]
      exact habs
    · rw [alookup_truncateContent_ne _ _ hc]
      exact habs
  · intro srv k h
    unfold sanitizeServer
    dsimp only
    cases hsd : alookup "server_data" srv with
    | none => rfl
    | some v =>
      cases v with
      | arr eps =>
        show alookup k (aset "server_data" (.arr (eps.map sanitizeEpisode)) srv) = alookup k srv
        exact alookup_aset_ne h _ srv
      | null => rfl
      | bool b => rfl
      | num n => rfl
      | str s => rfl
      | obj l => rfl
  · intro e k h
    show alookup k (episodeKeys.foldl sanStep e) = alookup k e
    exact alookup_foldl_sanStep_ne _ _ _ h
  · intro e k h
    show alookup k (episodeKeys.foldl sanStep e) = none
    exact alookup_foldl_sanStep_none _ _ _ h

/-- Witness for C10 at concrete dicts: a `year` field and an episode
`link_m3u8` pass through untouched, and an absent `origin_name` stays
absent. -/
theorem c10_sanitize_frame_witness :
    alookup "year" (movieTransform [("year", JVal.num 2020), ("content", JVal.str "c")]) =
      some (JVal.num 2020) ∧
    alookup "origin_name" (movieTransform [("content", JVal.str "c")]) = none ∧
    alookup "server_name" (asObj (sanitizeServer (.obj (asObj serverC3)))) =
      some (JVal.str "S1") ∧
    alookup "link_m3u8" (asObj (sanitizeEpisode epC3)) =
      some (JVal.str "http://x/e1.m3u8") := by
  refine ⟨?_, ?_, ?_, ?_⟩
  · rw [c10_sanitize_frame.1 [("year", JVal.num 2020), ("content", JVal.str "c")] "year"
      (by decide)]
    rfl
  · exact c10_sanitize_frame.2.1 [("content", JVal.str "c")] "origin_name" rfl
  · rw [c10_sanitize_frame.2.2.1 (asObj serverC3) "server_name" (by decide)]
    rfl
  · rw [show sanitizeEpisode epC3 = sanitizeEpisode (.obj (asObj epC3)) from rfl,
      c10_sanitize_frame.2.2.2.1 (asObj epC3) "link_m3u8" (by decide)]
    rfl

/-! ## Claim C4: listing-page fetch failures -/

theorem crawlFrom_listing_fail (env : Env) (st : Store) (fuel page : Nat)
    (h : env.listing page = none) :
    crawlFrom env (fuel + 1) page st = ⟨st, [Event.listFetch page], true⟩ := by
  unfold crawlFrom
  rw [h]

/-- Claim C4 as amended: a listing fetch failure on any page — the first
included — makes the run stop exactly as end-of-data: the same single
code path (`break`), the same normal completion flag as every other
exit, no store change, no further requests.  The script has no run-level
abort for listing failures and its exit status does not distinguish a
page-1 failure from normal completion. -/
theorem c4_page_failure_uniform (env : Env) (st : Store) (fuel page : Nat)
    (h1 : env.listing 1 = none) (hp : env.listing page = none) :
    crawl_movies env (fuel + 1) st = ⟨st, [Event.listFetch 1], true⟩ ∧
    crawlFrom env (fuel + 1) page st = ⟨st, [Event.listFetch page], true⟩ ∧
    (crawl_movies env (fuel + 1) st).completed =
      (crawlFrom env (fuel + 1) page st).completed := by
  have hrun : crawl_movies env (fuel + 1) st = ⟨st, [Event.listFetch 1], true⟩ := by
    unfold crawl_movies
    exact crawlFrom_listing_fail env st fuel 1 h1
  have hpage := crawlFrom_listing_fail env st fuel page hp
  exact ⟨hrun, hpage, by rw [hrun, hpage]⟩

/-- Witness for the amended C4 at concrete failing environments. -/
theorem c4_page_failure_uniform_witness :
    crawl_movies envEmpty 6 [] = ⟨[], [Event.listFetch 1], true⟩ ∧
    crawlFrom envEmpty 6 3 [] = ⟨[], [Event.listFetch 3], true⟩ ∧
    (crawl_movies envEmpty 6 []).completed = (crawlFrom envEmpty 6 3 []).completed :=
  c4_page_failure_uniform envEmpty [] 5 3 rfl rfl

/-- Counterexample to claim C4 as stated: the run whose very first
listing fetch fails produces exactly the same result shape — including
the completion flag the process exits with — as a run that completes
normally on an empty first page; nothing distinguishes a page-1 abort
from normal completion. -/
theorem c4_counterexample :
    crawl_movies envEmpty 5 [] = ⟨[], [Event.listFetch 1], true⟩ ∧
    crawl_movies envNoItems 5 [] = ⟨[], [Event.listFetch 1], true⟩ ∧
    (crawl_movies envEmpty 5 []).completed = (crawl_movies envNoItems 5 []).completed := by
  refine ⟨rfl, ?_, ?_⟩ <;> rfl

/-! ## Claim C8: corrupt cache entries -/

/-- Claim C8: when the stored value under the item's cache key fails to
deserialize, `cache_movie` behaves exactly (same result string, same
trace of requests and store operations) as if no stored record existed,
and on the successful fetch path it performs the full write of the
freshly built document and returns `"cached"` — it neither fails nor
crashes on account of the corrupt entry. -/
theorem c8_corrupt_cache (env : Env) (st : Store) (it : JObj) (raw : String)
    (hraw : alookup (MOVIE_DETAIL_CACHE_PREFIX ++ slugOf it) st = some raw)
    (hbad : json_loads raw = none) :
    ((cache_movie env st it).1 =
       (cache_movie env (aremove (MOVIE_DETAIL_CACHE_PREFIX ++ slugOf it) st) it).1 ∧
     (cache_movie env st it).2.2 =
       (cache_movie env (aremove (MOVIE_DETAIL_CACHE_PREFIX ++ slugOf it) st) it).2.2) ∧
    (∀ api : JObj, slugOf it ≠ "" → env.detail (slugOf it) = some api →
      pyTruthy (jgetD api "status" (.bool false)) = true →
      validate_movie_data (asObj (jgetD api "movie" (.obj []))) = true →
      cache_movie env st it =
        ("cached",
         aset (MOVIE_DETAIL_CACHE_PREFIX ++ slugOf it) (dumps (fullDataOf api)) st,
         [.detailFetch (slugOf it), .cacheGet (MOVIE_DETAIL_CACHE_PREFIX ++ slugOf it),
          .cacheSet (MOVIE_DETAIL_CACHE_PREFIX ++ slugOf it)])) := by
  have hex1 : (alookup (MOVIE_DETAIL_CACHE_PREFIX ++ slugOf it) st).bind json_loads = none := by
    rw [hraw]
    exact hbad
  have hex2 : (alookup (MOVIE_DETAIL_CACHE_PREFIX ++ slugOf it)
      (aremove (MOVIE_DETAIL_CACHE_PREFIX ++ slugOf it) st)).bind json_loads = none := by
    rw [alookup_aremove_self]
    rfl
  constructor
  · unfold cache_movie
    dsimp only
    by_cases h1 : slugOf it = ""
    · rw [if_pos h1, if_pos h1]
      exact ⟨rfl, rfl⟩
    · rw [if_neg h1, if_neg h1]
      cases henv : env.detail (slugOf it) with
      | none => exact ⟨rfl, rfl⟩
      | some api =>
        dsimp only
        by_cases h2 : !pyTruthy (jgetD api "status" (.bool false))
        · rw [if_pos h2, if_pos h2]
          exact ⟨rfl, rfl⟩
        · rw [if_neg h2, if_neg h2]
          by_cases h3 : !validate_movie_data (asObj (jgetD api "movie" (.obj [])))
          · rw [if_pos h3, if_pos h3]
            exact ⟨rfl, rfl⟩
          · rw [if_neg h3, if_neg h3]
            rw [hex1, hex2]
            exact ⟨rfl, rfl⟩
  · intro api h1 h2 h3 h4
    unfold cache_movie
    rw [if_neg h1]
    dsimp only
    rw [h2]
    dsimp only
    rw [if_neg (by rw [h3]; decide)]
    rw [if_neg (by rw [h4]; decide)]
    rw [hex1]

/-- Witness for C8: a store holding unparseable text under `movie:sl`
yields the same outcome as the emptied store, and the full write. -/
theorem c8_corrupt_cache_witness :
    ((cache_movie envC3 [("movie:sl", "oops")] itemC3).1 =
       (cache_movie envC3 (aremove (MOVIE_DETAIL_CACHE_PREFIX ++ slugOf itemC3)
          [("movie:sl", "oops")]) itemC3).1 ∧
     (cache_movie envC3 [("movie:sl", "oops")] itemC3).2.2 =
       (cache_movie envC3 (aremove (MOVIE_DETAIL_CACHE_PREFIX ++ slugOf itemC3)
          [("movie:sl", "oops")]) itemC3).2.2) ∧
    cache_movie envC3 [("movie:sl", "oops")] itemC3 =
      ("cached",
       aset (MOVIE_DETAIL_CACHE_PREFIX ++ slugOf itemC3) (dumps (fullDataOf detailC3))
         [("movie:sl", "oops")],
       [.detailFetch (slugOf itemC3),
        .cacheGet (MOVIE_DETAIL_CACHE_PREFIX ++ slugOf itemC3),
        .cacheSet (MOVIE_DETAIL_CACHE_PREFIX ++ slugOf itemC3)]) := by
  have h := c8_corrupt_cache envC3 [("movie:sl", "oops")] itemC3 "oops" rfl rfl
  exact ⟨h.1, h.2 detailC3 (by decide) rfl rfl rfl⟩

/-! ## Claim C1: the early-stop heuristic -/

theorem processItems_nil (env : Env) (st : Store) :
    processItems env st [] = (false, st, []) := rfl

theorem processItems_stop_append (env : Env) (pre : List JObj) :
    ∀ (st st1 st2 : Store) (ev1 ev2 : List Event) (it : JObj) (post : List JObj),
      processItems env st pre = (false, st1, ev1) →
      cache_movie env st1 it = ("skipped", st2, ev2) →
      processItems env st (pre ++ it :: post) = (true, st2, ev1 ++ ev2) := by
  induction pre with
  | nil =>
    intro st st1 st2 ev1 ev2 it post hpre hit
    rw [processItems_nil] at hpre
    have h1 : st = st1 := congrArg (fun x => x.2.1) hpre
    have h2 : ([] : List Event) = ev1 := congrArg (fun x => x.2.2) hpre
    subst h1
    rw [← h2, List.nil_append, List.nil_append, processItems_cons, hit]
    rfl
  | cons p ps ih =>
    intro st st1 st2 ev1 ev2 it post hpre hit
    rw [processItems_cons] at hpre
    by_cases hr : (cache_movie env st p).1 = "skipped"
    · rw [if_pos hr] at hpre
      have : true = false := congrArg (fun x => x.1) hpre
      exact absurd this (by decide)
    · rw [if_neg hr] at hpre
      have h1 : (processItems env (cache_movie env st p).2.1 ps).1 = false :=
        congrArg (fun x => x.1) hpre
      have h2 : (processItems env (cache_movie env st p).2.1 ps).2.1 = st1 :=
        congrArg (fun x => x.2.1) hpre
      have h3 : (cache_movie env st p).2.2 ++
          (processItems env (cache_movie env st p).2.1 ps).2.2 = ev1 :=
        congrArg (fun x => x.2.2) hpre
      have hps : processItems env (cache_movie env st p).2.1 ps =
          (false, st1, (processItems env (cache_movie env st p).2.1 ps).2.2) := by
        rw [← h1, ← h2]
      have hstep := ih (cache_movie env st p).2.1 st1 st2
        (processItems env (cache_movie env st p).2.1 ps).2.2 ev2 it post hps hit
      rw [List.cons_append, processItems_cons, if_neg hr, hstep, ← h3, List.append_assoc]

theorem cache_movie_no_listFetch (env : Env) (st : Store) (it : JObj) (p : Nat) :
    Event.listFetch p ∉ (cache_movie env st it).2.2 := by
  rcases cache_movie_shape env st it with h | h | h | ⟨d, h⟩ <;> rw [h] <;> simp

theorem processItems_no_listFetch (env : Env) (l : List JObj) :
    ∀ (st : Store) (p : Nat), Event.listFetch p ∉ (processItems env st l).2.2 := by
  induction l with
  | nil =>
    intro st p
    rw [processItems_nil]
    simp
  | cons it rest ih =>
    intro st p
    rw [processItems_cons]
    by_cases hr : (cache_movie env st it).1 = "skipped"
    · rw [if_pos hr]
      exact cache_movie_no_listFetch env st it p
    · rw [if_neg hr]
      intro hmem
      rcases List.mem_append.mp hmem with hmem | hmem
      · exact cache_movie_no_listFetch env st it p hmem
      · exact ih _ p hmem

/-- Claim C1: on the first item of the run whose reconciliation is
`skipped` (unchanged), the whole run terminates at once: the complete
trace from the current listing page onwards is exactly the page fetch,
the events of the items before the stopping item, and the stopping
item's own events — so no detail fetch is issued for any remaining item
of the page, and no further listing page is ever requested. -/
theorem c1_early_stop (env : Env) (st : Store) (fuel page : Nat) (api : JObj)
    (pre : List JObj) (it : JObj) (post : List JObj) (st1 st2 : Store)
    (ev1 ev2 : List Event)
    (hl : env.listing page = some api)
    (hstatus : pyTruthy (jgetD api "status" (.bool false)) = true)
    (hitems : extractItems api = pre ++ it :: post)
    (hpre : processItems env st pre = (false, st1, ev1))
    (hit : cache_movie env st1 it = ("skipped", st2, ev2)) :
    crawlFrom env (fuel + 1) page st =
      ⟨st2, Event.listFetch page :: ev1 ++ ev2, true⟩ ∧
    (∀ p : Nat, Event.listFetch p ∈ (crawlFrom env (fuel + 1) page st).trace → p = page) ∧
    (∀ s : String, Event.detailFetch s ∈ (crawlFrom env (fuel + 1) page st).trace →
      Event.detailFetch s ∈ ev1 ++ ev2) := by
  have hstop := processItems_stop_append env pre st st1 st2 ev1 ev2 it post hpre hit
  have hev1 : ev1 = (processItems env st pre).2.2 := (congrArg (fun x => x.2.2) hpre).symm
  have hev2 : ev2 = (cache_movie env st1 it).2.2 := (congrArg (fun x => x.2.2) hit).symm
  have hmain : crawlFrom env (fuel + 1) page st =
      ⟨st2, Event.listFetch page :: ev1 ++ ev2, true⟩ := by
    unfold crawlFrom
    rw [hl]
    dsimp only
    rw [if_neg (by rw [hstatus]; decide), hitems, hstop]
    rw [if_neg (by simp)]
    rfl
  refine ⟨hmain, ?_, ?_⟩
  · intro p hp
    rw [hmain] at hp
    have hp' : Event.listFetch p ∈ Event.listFetch page :: ev1 ++ ev2 := hp
    rcases List.mem_cons.mp hp' with h | h
    · exact (Event.listFetch.injEq p page) ▸ h
    · exfalso
      rcases List.mem_append.mp h with h | h
      · rw [hev1] at h
        exact processItems_no_listFetch env pre st p h
      · rw [hev2] at h
        exact cache_movie_no_listFetch env st1 it p h
  · intro s hs
    rw [hmain] at hs
    have hs' : Event.detailFetch s ∈ Event.listFetch page :: ev1 ++ ev2 := hs
    rcases List.mem_cons.mp hs' with h | h
    · exact absurd h (by simp)
    · exact h

/-- Witness for C1: page 1 lists three items; the first fails, the
second is found unchanged, and the run's complete trace stops there —
the third item is never fetched and page 2 is never requested. -/
theorem c1_early_stop_witness :
    crawlFrom envC1 (4 + 1) 1 stC1 =
      ⟨stC1, Event.listFetch 1 :: [Event.detailFetch "s1"] ++
        [Event.detailFetch "s2", Event.cacheGet "movie:s2"], true⟩ ∧
    (∀ p : Nat, Event.listFetch p ∈ (crawlFrom envC1 (4 + 1) 1 stC1).trace → p = 1) ∧
    (∀ s : String, Event.detailFetch s ∈ (crawlFrom envC1 (4 + 1) 1 stC1).trace →
      Event.detailFetch s ∈ [Event.detailFetch "s1"] ++
        [Event.detailFetch "s2", Event.cacheGet "movie:s2"]) :=
  c1_early_stop envC1 stC1 4 1 apiC1 [[("slug", .str "s1")]] [("slug", .str "s2")]
    [[("slug", .str "s3")]] stC1 stC1 [Event.detailFetch "s1"]
    [Event.detailFetch "s2", Event.cacheGet "movie:s2"] rfl rfl rfl rfl (by rfl)

/-! ## Claim C7: sanitization idempotence -/

theorem foldQuote_foldQuote (c : Char) : foldQuote (foldQuote c) = foldQuote c := by
  by_cases h1 : c = '“'
  · subst h1
    decide
  · by_cases h2 : c = '”'
    · subst h2
      decide
    · by_cases h3 : c = '‘'
      · subst h3
        decide
      · by_cases h4 : c = '’'
        · subst h4
          decide
        · have e : foldQuote c = c := by
            unfold foldQuote
            rw [if_neg h1, if_neg h2, if_neg h3, if_neg h4]
          rw [e, e]

theorem list_map_fix {f : Char → Char} :
    ∀ l : List Char, (∀ x ∈ l, f x = x) → l.map f = l := by
  intro l h
  induction l with
  | nil => rfl
  | cons a t ih =>
    rw [List.map_cons, h a (List.mem_cons_self a t),
      ih (fun x hx => h x (List.mem_cons_of_mem a hx))]

theorem sanitize_chars_fixed (l : List Char) :
    (((l.map foldQuote).filter pyPrintable).map foldQuote).filter pyPrintable =
      (l.map foldQuote).filter pyPrintable := by
  have hm : ((l.map foldQuote).filter pyPrintable).map foldQuote =
      (l.map foldQuote).filter pyPrintable := by
    apply list_map_fix
    intro x hx
    have hx' : x ∈ l.map foldQuote := List.mem_of_mem_filter hx
    obtain ⟨y, _, rfl⟩ := List.mem_map.mp hx'
    exact foldQuote_foldQuote y
  rw [hm]
  exact List.filter_eq_self.mpr (fun a ha => List.of_mem_filter ha)

/-- Claim C7 as amended: `sanitize_string` is a total deterministic
function, and it is idempotent on every string whose sanitized form is
NFC-stable; in general idempotence fails, because removing a
non-printable character between a base letter and a combining mark lets
NFC compose them on the second pass. -/
theorem c7_sanitize_idempotent (s : String)
    (h : pyNFC (sanitizeStr s) = sanitizeStr s) :
    sanitize_string (.str (sanitize_string (.str s))) = sanitize_string (.str s) := by
  show sanitizeStr (sanitizeStr s) = sanitizeStr s
  show String.mk (((pyNFC (sanitizeStr s)).data.map foldQuote).filter pyPrintable) =
    sanitizeStr s
  rw [h]
  show String.mk
      (((String.mk (((pyNFC s).data.map foldQuote).filter pyPrintable)).data.map
        foldQuote).filter pyPrintable) =
    String.mk (((pyNFC s).data.map foldQuote).filter pyPrintable)
  exact congrArg String.mk (sanitize_chars_fixed (pyNFC s).data)

/-- Witness for the amended C7: a string with a typographic quote whose
sanitized form is NFC-stable, hence idempotently sanitized. -/
theorem c7_sanitize_idempotent_witness :
    pyNFC (sanitizeStr "ab“cd") = sanitizeStr "ab“cd" ∧
    sanitize_string (.str (sanitize_string (.str "ab“cd"))) = sanitize_string (.str "ab“cd") :=
  ⟨by decide, c7_sanitize_idempotent "ab“cd" (by decide)⟩

/-- Counterexample to claim C7 as stated: sanitizing `a + ZWNJ +
combining acute` removes the non-printable joiner, and the second
sanitization pass NFC-composes the now-adjacent pair, so
`sanitizeText(sanitizeText(x)) ≠ sanitizeText(x)`. -/
theorem c7_counterexample :
    sanitize_string (.str (sanitize_string (.str zwnjStr))) ≠ sanitize_string (.str zwnjStr) := by
  decide

/-- Witness for the amended C3 at the concrete new item: the single
write's key is the primary key, and the `"cached"` run writes exactly
once. -/
theorem c3_only_primary_write_witness :
    "movie:sl" = MOVIE_DETAIL_CACHE_PREFIX ++ slugOf itemC3 ∧
    setEvents (cache_movie envC3 [] itemC3).2.2 =
      [Event.cacheSet (MOVIE_DETAIL_CACHE_PREFIX ++ slugOf itemC3)] :=
  ⟨(c3_only_primary_write envC3 [] itemC3).1 "movie:sl" (by decide),
   (c3_only_primary_write envC3 [] itemC3).2 rfl⟩

/-! ## Claim C2: groundwork — induction, sizes, the key order -/

theorem sizeJ_pos (v : JVal) : 1 ≤ sizeJ v := by
  cases v <;> simp [sizeJ]

theorem sizeJ_lt_of_mem_list {l : List JVal} {x : JVal} (h : x ∈ l) :
    sizeJ x < 1 + sizeJList l := by
  induction l with
  | nil => cases h
  | cons a t ih =>
    rcases List.mem_cons.mp h with rfl | h
    · simp [sizeJList]
      omega
    · have := ih h
      simp [sizeJList]
      omega

theorem sizeJ_lt_of_mem_fields {l : List (String × JVal)} {p : String × JVal} (h : p ∈ l) :
    sizeJ p.2 < 1 + sizeJFields l := by
  induction l with
  | nil => cases h
  | cons a t ih =>
    obtain ⟨k, v⟩ := a
    rcases List.mem_cons.mp h with rfl | h
    · simp [sizeJFields]
      omega
    · have := ih h
      simp [sizeJFields]
      omega

theorem JVal.inductionOn {P : JVal → Prop}
    (hnull : P .null) (hbool : ∀ b, P (.bool b)) (hnum : ∀ n, P (.num n))
    (hstr : ∀ s, P (.str s))
    (harr : ∀ l, (∀ v ∈ l, P v) → P (.arr l))
    (hobj : ∀ l, (∀ p ∈ l, P p.2) → P (.obj l)) : ∀ v, P v := by
  have H : ∀ n v, sizeJ v ≤ n → P v := by
    intro n
    induction n with
    | zero =>
      intro v hv
      have := sizeJ_pos v
      omega
    | succ n ih =>
      intro v hv
      cases v with
      | null => exact hnull
      | bool b => exact hbool b
      | num m => exact hnum m
      | str s => exact hstr s
      | arr l =>
        refine harr l (fun x hx => ih x ?_)
        have h1 := sizeJ_lt_of_mem_list hx
        have h2 : sizeJ (.arr l) = 1 + sizeJList l := rfl
        omega
      | obj l =>
        refine hobj l (fun p hp => ih p.2 ?_)
        have h1 := sizeJ_lt_of_mem_fields hp
        have h2 : sizeJ (.obj l) = 1 + sizeJFields l := rfl
        omega
  exact fun v => H (sizeJ v) v (le_refl _)

theorem sizeJFields_eq_sum (l : List (String × JVal)) :
    sizeJFields l = (l.map (fun p => 1 + sizeJ p.2)).sum := by
  induction l with
  | nil => rfl
  | cons a t ih =>
    obtain ⟨k, v⟩ := a
    simp [sizeJFields, ih]

theorem sizeJFields_perm {l m : List (String × JVal)} (h : l.Perm m) :
    sizeJFields l = sizeJFields m := by
  rw [sizeJFields_eq_sum, sizeJFields_eq_sum]
  exact (h.map _).sum_eq

theorem char_eq_of_toNat_eq {a b : Char} (h : a.toNat = b.toNat) : a = b := by
  have := congrArg Char.ofNat h
  rwa [Char.ofNat_toNat, Char.ofNat_toNat] at this

theorem leChars_total (a : List Char) : ∀ b, leChars a b = true ∨ leChars b a = true := by
  induction a with
  | nil => intro b; left; rfl
  | cons x xs ih =>
    intro b
    cases b with
    | nil => right; rfl
    | cons y ys =>
      rcases Nat.lt_trichotomy x.toNat y.toNat with h | h | h
      · left
        unfold leChars
        rw [if_pos h]
      · rcases ih ys with hc | hc
        · left
          unfold leChars
          rw [if_neg (by omega), if_neg (by omega)]
          exact hc
        · right
          unfold leChars
          rw [if_neg (by omega), if_neg (by omega)]
          exact hc
      · right
        unfold leChars
        rw [if_pos h]

theorem leChars_trans (a : List Char) :
    ∀ b c, leChars a b = true → leChars b c = true → leChars a c = true := by
  induction a with
  | nil => intro b c _ _; rfl
  | cons x xs ih =>
    intro b c hab hbc
    cases b with
    | nil => simp [leChars] at hab
    | cons y ys =>
      cases c with
      | nil => simp [leChars] at hbc
      | cons z zs =>
        unfold leChars at hab hbc ⊢
        by_cases h1 : x.toNat < y.toNat
        · by_cases h2 : y.toNat < z.toNat
          · rw [if_pos (by omega)]
          · rw [if_neg h2] at hbc
            by_cases h3 : z.toNat < y.toNat
            · rw [if_pos h3] at hbc
              exact absurd hbc (by decide)
            · rw [if_pos (by omega)]
        · rw [if_neg h1] at hab
          by_cases h1' : y.toNat < x.toNat
          · rw [if_pos h1'] at hab
            exact absurd hab (by decide)
          · rw [if_neg h1'] at hab
            by_cases h2 : y.toNat < z.toNat
            · rw [if_pos (by omega)]
            · rw [if_neg h2] at hbc
              by_cases h3 : z.toNat < y.toNat
              · rw [if_pos h3] at hbc
                exact absurd hbc (by decide)
              · rw [if_neg h3] at hbc
                rw [if_neg (by omega), if_neg (by omega)]
                exact ih ys zs hab hbc

theorem leChars_antisymm (a : List Char) :
    ∀ b, leChars a b = true → leChars b a = true → a = b := by
  induction a with
  | nil =>
    intro b _ hba
    cases b with
    | nil => rfl
    | cons y ys => simp [leChars] at hba
  | cons x xs ih =>
    intro b hab hba
    cases b with
    | nil => simp [leChars] at hab
    | cons y ys =>
      unfold leChars at hab hba
      by_cases h1 : x.toNat < y.toNat
      · rw [if_neg (by omega), if_pos h1] at hba
        exact absurd hba (by decide)
      · by_cases h2 : y.toNat < x.toNat
        · rw [if_neg (by omega), if_pos h2] at hab
          exact absurd hab (by decide)
        · rw [if_neg h1, if_neg h2] at hab
          rw [if_neg h2, if_neg h1] at hba
          rw [char_eq_of_toNat_eq (by omega : x.toNat = y.toNat), ih ys hab hba]

theorem string_data_inj {a b : String} (h : a.data = b.data) : a = b := by
  cases a
  cases b
  cases h
  rfl

theorem strLe_total (a b : String) : strLe a b = true ∨ strLe b a = true :=
  leChars_total a.data b.data

theorem strLe_trans {a b c : String} (h1 : strLe a b = true) (h2 : strLe b c = true) :
    strLe a c = true :=
  leChars_trans a.data b.data c.data h1 h2

theorem strLe_antisymm {a b : String} (h1 : strLe a b = true) (h2 : strLe b a = true) :
    a = b :=
  string_data_inj (leChars_antisymm a.data b.data h1 h2)

/-! ## Claim C2: properties of the key sort -/

theorem insertPair_perm {α : Type} (p : String × α) (l : List (String × α)) :
    (insertPair p l).Perm (p :: l) := by
  induction l with
  | nil => exact List.Perm.refl _
  | cons q t ih =>
    unfold insertPair
    by_cases h : strLe p.1 q.1
    · rw [if_pos h]
    · rw [if_neg h]
      exact (ih.cons q).trans (List.Perm.swap p q t)

theorem sortPairs_perm {α : Type} (l : List (String × α)) : (sortPairs l).Perm l := by
  induction l with
  | nil => exact List.Perm.refl _
  | cons p t ih =>
    unfold sortPairs
    exact (insertPair_perm p (sortPairs t)).trans (ih.cons p)

theorem pairwise_insertPair {α : Type} (p : String × α) (l : List (String × α))
    (hl : l.Pairwise (fun a b => strLe a.1 b.1 = true)) :
    (insertPair p l).Pairwise (fun a b => strLe a.1 b.1 = true) := by
  induction l with
  | nil => exact List.pairwise_singleton _ p
  | cons q t ih =>
    rcases List.pairwise_cons.mp hl with ⟨hq, ht⟩
    unfold insertPair
    by_cases h : strLe p.1 q.1
    · rw [if_pos h]
      refine List.pairwise_cons.mpr ⟨?_, hl⟩
      intro b hb
      rcases List.mem_cons.mp hb with rfl | hb
      · exact h
      · exact strLe_trans h (hq b hb)
    · rw [if_neg h]
      refine List.pairwise_cons.mpr ⟨?_, ih ht⟩
      intro b hb
      have hb' := (insertPair_perm p t).mem_iff.mp hb
      rcases List.mem_cons.mp hb' with rfl | hb'
      · rcases strLe_total b.1 q.1 with hc | hc
        · exact absurd hc h
        · exact hc
      · exact hq b hb'

theorem sortPairs_sorted {α : Type} (l : List (String × α)) :
    (sortPairs l).Pairwise (fun a b => strLe a.1 b.1 = true) := by
  induction l with
  | nil => exact List.Pairwise.nil
  | cons p t ih => exact pairwise_insertPair p (sortPairs t) ih

theorem sortPairs_of_sorted {α : Type} (l : List (String × α))
    (hl : l.Pairwise (fun a b => strLe a.1 b.1 = true)) : sortPairs l = l := by
  induction l with
  | nil => rfl
  | cons p t ih =>
    rcases List.pairwise_cons.mp hl with ⟨hp, ht⟩
    unfold sortPairs
    rw [ih ht]
    cases t with
    | nil => rfl
    | cons q t' =>
      unfold insertPair
      rw [if_pos (hp q (List.mem_cons_self q t'))]

theorem sortPairs_idem {α : Type} (l : List (String × α)) :
    sortPairs (sortPairs l) = sortPairs l :=
  sortPairs_of_sorted _ (sortPairs_sorted l)

theorem insertPair_map_comm {α β : Type} (g : (String × α) → (String × β))
    (hg : ∀ q, (g q).1 = q.1) (p : String × α) (l : List (String × α)) :
    insertPair (g p) (l.map g) = (insertPair p l).map g := by
  induction l with
  | nil => rfl
  | cons q t ih =>
    rw [List.map_cons]
    unfold insertPair
    rw [hg p, hg q]
    by_cases h : strLe p.1 q.1
    · rw [if_pos h, if_pos h, List.map_cons, List.map_cons]
    · rw [if_neg h, if_neg h, List.map_cons, ih]

theorem sortPairs_map_comm {α β : Type} (g : (String × α) → (String × β))
    (hg : ∀ q, (g q).1 = q.1) (l : List (String × α)) :
    sortPairs (l.map g) = (sortPairs l).map g := by
  induction l with
  | nil => rfl
  | cons p t ih =>
    rw [List.map_cons]
    unfold sortPairs
    rw [ih, insertPair_map_comm g hg]

theorem sorted_perm_nodup_eq {α : Type} :
    ∀ (l₁ l₂ : List (String × α)), l₁.Perm l₂ →
      l₁.Pairwise (fun a b => strLe a.1 b.1 = true) →
      l₂.Pairwise (fun a b => strLe a.1 b.1 = true) →
      (l₁.map Prod.fst).Nodup → l₁ = l₂ := by
  intro l₁
  induction l₁ with
  | nil =>
    intro l₂ hperm _ _ _
    exact hperm.nil_eq
  | cons a t ih =>
    intro l₂ hperm h1 h2 hnd
    cases l₂ with
    | nil =>
      have := hperm.length_eq
      simp at this
    | cons b t₂ =>
      rcases List.pairwise_cons.mp h1 with ⟨ha, ht⟩
      rcases List.pairwise_cons.mp h2 with ⟨hb, ht₂⟩
      by_cases hab : a = b
      · subst hab
        have hperm' := hperm.cons_inv
        have hnd' : (t.map Prod.fst).Nodup := by
          rw [List.map_cons] at hnd
          exact (List.nodup_cons.mp hnd).2
        rw [ih t₂ hperm' ht ht₂ hnd']
      · exfalso
        have hmem_a : a ∈ b :: t₂ := hperm.mem_iff.mp (List.mem_cons_self a t)
        have hmem_b : b ∈ a :: t := hperm.symm.mem_iff.mp (List.mem_cons_self b t₂)
        have ha_t2 : a ∈ t₂ := by
          rcases List.mem_cons.mp hmem_a with h | h
          · exact absurd h hab
          · exact h
        have hb_t : b ∈ t := by
          rcases List.mem_cons.mp hmem_b with h | h
          · exact absurd h.symm hab
          · exact h
        have hkey : a.1 = b.1 := strLe_antisymm (ha b hb_t) (hb a ha_t2)
        rw [List.map_cons] at hnd
        have hnin := (List.nodup_cons.mp hnd).1
        have : b.1 ∈ t.map Prod.fst := List.mem_map_of_mem Prod.fst hb_t
        rw [← hkey] at this
        exact hnin this

/-! ## Claim C2: dumps is determined by the canonical form -/

theorem canonList_eq_map (l : List JVal) : canonList l = l.map canon := by
  induction l with
  | nil => rfl
  | cons v t ih => rw [canonList, ih, List.map_cons]

theorem canonFields_eq_map (l : List (String × JVal)) :
    canonFields l = l.map (fun p => (p.1, canon p.2)) := by
  induction l with
  | nil => rfl
  | cons p t ih =>
    obtain ⟨k, v⟩ := p
    rw [canonFields, ih, List.map_cons]

theorem dumpElems_eq_map (l : List JVal) : dumpElems l = l.map dumpVal := by
  induction l with
  | nil => rfl
  | cons v t ih => rw [dumpElems, ih, List.map_cons]

theorem dumpMembers_eq_map (l : List (String × JVal)) :
    dumpMembers l = l.map (fun p => (p.1, memberChars p)) := by
  induction l with
  | nil => rfl
  | cons p t ih =>
    obtain ⟨k, v⟩ := p
    rw [dumpMembers, ih, List.map_cons]
    rfl

theorem dumpVal_canon : ∀ v : JVal, dumpVal (canon v) = dumpVal v := by
  refine JVal.inductionOn rfl (fun b => rfl) (fun n => rfl) (fun s => rfl) ?_ ?_
  · intro l ihl
    show dumpVal (.arr (canonList l)) = dumpVal (.arr l)
    have harr : dumpElems (canonList l) = dumpElems l := by
      rw [dumpElems_eq_map, dumpElems_eq_map, canonList_eq_map, List.map_map]
      exact List.map_congr_left (fun v hv => ihl v hv)
    show '[' :: List.intercalate [',', ' '] (dumpElems (canonList l)) ++ [']'] =
      '[' :: List.intercalate [',', ' '] (dumpElems l) ++ [']']
    rw [harr]
  · intro l ihl
    have hmc : ∀ q : String × JVal, ((fun p => (p.1, memberChars p)) q).1 = q.1 :=
      fun q => rfl
    have hcf : ∀ q : String × JVal, ((fun p => (p.1, canon p.2)) q).1 = q.1 :=
      fun q => rfl
    have key : sortPairs (dumpMembers (sortPairs (canonFields l))) =
        sortPairs (dumpMembers l) := by
      rw [dumpMembers_eq_map, dumpMembers_eq_map, canonFields_eq_map]
      rw [sortPairs_map_comm _ hcf l]
      have hgc : ∀ q : String × JVal,
          (((fun p => (p.1, memberChars p)) ∘ (fun p => (p.1, canon p.2))) q).1 = q.1 :=
        fun q => rfl
      rw [List.map_map, sortPairs_map_comm _ hgc (sortPairs l), sortPairs_idem]
      rw [sortPairs_map_comm _ hmc l]
      refine List.map_congr_left ?_
      intro p hp
      have hpl : p ∈ l := (sortPairs_perm l).mem_iff.mp hp
      show (p.1, memberChars (p.1, canon p.2)) = (p.1, memberChars p)
      unfold memberChars
      rw [show ((p.1, canon p.2) : String × JVal).2 = canon p.2 from rfl]
      rw [ihl p hpl]
    show dumpVal (.obj (sortPairs (canonFields l))) = dumpVal (.obj l)
    show lbrace :: List.intercalate [',', ' ']
        ((sortPairs (dumpMembers (sortPairs (canonFields l)))).map Prod.snd) ++ [rbrace] =
      lbrace :: List.intercalate [',', ' '] ((sortPairs (dumpMembers l)).map Prod.snd) ++ [rbrace]
    rw [key]

theorem dumps_canon (v : JVal) : dumps (canon v) = dumps v :=
  congrArg String.mk (dumpVal_canon v)

/-! ## Claim C2: number and whitespace facts -/

theorem skipWs_cons (c : Char) (r : List Char) :
    skipWs (c :: r) = if isWs c = true then skipWs r else c :: r := rfl

theorem skipWs_cons_notWs {c : Char} (h : isWs c = false) (r : List Char) :
    skipWs (c :: r) = c :: r := by
  rw [skipWs_cons, h]
  simp

theorem skipWs_cons_ws {c : Char} (h : isWs c = true) (r : List Char) :
    skipWs (c :: r) = skipWs r := by
  rw [skipWs_cons, h]
  simp

theorem natChars_digits : ∀ n : Nat,
    natChars n ≠ [] ∧ ∀ c ∈ natChars n, isDigitCh c = true := by
  intro n
  induction n using Nat.strong_induction_on with
  | _ n ih =>
    by_cases h : n < 10
    · have e : natChars n = [Nat.digitChar n] := by
        conv_lhs => rw [natChars]
        rw [dif_pos h]
      rw [e]
      refine ⟨by simp, ?_⟩
      intro c hc
      rcases List.mem_singleton.mp hc with rfl
      have : ∀ m, m < 10 → isDigitCh (Nat.digitChar m) = true := by decide
      exact this n h
    · have e : natChars n = natChars (n / 10) ++ [Nat.digitChar (n % 10)] := by
        conv_lhs => rw [natChars]
        rw [dif_neg h]
      have hdiv : n / 10 < n := Nat.div_lt_self (by omega) (by omega)
      obtain ⟨hne, hall⟩ := ih (n / 10) hdiv
      rw [e]
      refine ⟨by simp [hne], ?_⟩
      intro c hc
      rcases List.mem_append.mp hc with hc | hc
      · exact hall c hc
      · rcases List.mem_singleton.mp hc with rfl
        have : ∀ m, m < 10 → isDigitCh (Nat.digitChar m) = true := by decide
        exact this (n % 10) (Nat.mod_lt n (by omega))

theorem isDigitCh_bounds {c : Char} (h : isDigitCh c = true) :
    48 ≤ c.toNat ∧ c.toNat ≤ 57 := by
  unfold isDigitCh at h
  simp only [Bool.and_eq_true, decide_eq_true_eq] at h
  exact h

theorem isDigitCh_notWs {c : Char} (h : isDigitCh c = true) : isWs c = false := by
  obtain ⟨h1, h2⟩ := isDigitCh_bounds h
  unfold isWs
  have e1 : c ≠ ' ' := fun hh => by rw [hh] at h; exact absurd h (by decide)
  have e2 : c ≠ '\t' := fun hh => by rw [hh] at h; exact absurd h (by decide)
  have e3 : c ≠ '\n' := fun hh => by rw [hh] at h; exact absurd h (by decide)
  have e4 : c ≠ '\r' := fun hh => by rw [hh] at h; exact absurd h (by decide)
  simp [e1, e2, e3, e4]

theorem takeWhile_append_of_all {p : Char → Bool} :
    ∀ (l r : List Char), (∀ c ∈ l, p c = true) →
      (l ++ r).takeWhile p = l ++ r.takeWhile p ∧ (l ++ r).dropWhile p = r.dropWhile p := by
  intro l
  induction l with
  | nil => intro r _; exact ⟨rfl, rfl⟩
  | cons c t ih =>
    intro r hall
    have hc : p c = true := hall c (List.mem_cons_self c t)
    obtain ⟨h1, h2⟩ := ih r (fun x hx => hall x (List.mem_cons_of_mem c hx))
    constructor
    · rw [List.cons_append, List.takeWhile_cons, hc]
      simp [h1]
    · rw [List.cons_append, List.dropWhile_cons, hc]
      simp [h2]

theorem dropWhile_notDigitStart {r : List Char} (h : notDigitStart r = true) :
    r.takeWhile isDigitCh = [] ∧ r.dropWhile isDigitCh = r := by
  cases r with
  | nil => exact ⟨rfl, rfl⟩
  | cons c t =>
    have h' : (!isDigitCh c) = true := h
    have hc : isDigitCh c = false := by
      cases hdc : isDigitCh c
      · rfl
      · rw [hdc] at h'
        exact absurd h' (by decide)
    constructor
    · rw [List.takeWhile_cons, hc]
      simp
    · rw [List.dropWhile_cons, hc]
      simp

theorem natChars_foldl : ∀ n : Nat,
    (natChars n).foldl (fun acc c => acc * 10 + (c.toNat - 48)) 0 = n := by
  have hd : ∀ m, m < 10 → (Nat.digitChar m).toNat - 48 = m := by decide
  intro n
  induction n using Nat.strong_induction_on with
  | _ n ih =>
    by_cases h : n < 10
    · have e : natChars n = [Nat.digitChar n] := by
        conv_lhs => rw [natChars]
        rw [dif_pos h]
      rw [e]
      simp [List.foldl, hd n h]
    · have e : natChars n = natChars (n / 10) ++ [Nat.digitChar (n % 10)] := by
        conv_lhs => rw [natChars]
        rw [dif_neg h]
      have hdiv : n / 10 < n := Nat.div_lt_self (by omega) (by omega)
      rw [e, List.foldl_append, ih (n / 10) hdiv]
      simp [List.foldl, hd (n % 10) (Nat.mod_lt n (by omega))]
      omega

theorem parseNatLit_natChars (n : Nat) (rest : List Char)
    (hr : notDigitStart rest = true) :
    parseNatLit (natChars n ++ rest) = some (n, rest) := by
  obtain ⟨hne, hall⟩ := natChars_digits n
  obtain ⟨ht, hdr⟩ := takeWhile_append_of_all (natChars n) rest hall
  obtain ⟨ht2, hd2⟩ := dropWhile_notDigitStart hr
  unfold parseNatLit
  rw [ht, ht2, List.append_nil]
  rw [if_neg (by simp [hne])]
  rw [hdr, hd2, natChars_foldl]

/-! ## Claim C2: string-literal round-trip -/

theorem parseStringBody_cons_other {c : Char} (h1 : ¬ c = '"') (h2 : ¬ c = '\\')
    (r : List Char) :
    parseStringBody (c :: r) = (parseStringBody r).bind (fun p => some (c :: p.1, p.2)) := by
  conv_lhs => rw [parseStringBody.eq_def]
  dsimp only
  rw [if_neg h1, if_neg h2]
  rfl

theorem parseStringBody_short {c ch : Char} (h : unescapeShort c = some ch)
    (hu : ¬ c = 'u') (r : List Char) :
    parseStringBody ('\\' :: c :: r) =
      (parseStringBody r).bind (fun p => some (ch :: p.1, p.2)) := by
  conv_lhs => rw [parseStringBody.eq_def]
  dsimp only
  rw [if_neg (by decide : ¬('\\' : Char) = '"'), if_pos rfl]
  rw [if_neg hu, h]
  rfl

theorem parseStringBody_roundtrip :
    ∀ (l : List Char) (rest : List Char),
      parseStringBody ((l.map escapeChar).flatten ++ '"' :: rest) = some (l, rest) := by
  intro l
  induction l with
  | nil =>
    intro rest
    show parseStringBody ('"' :: rest) = some ([], rest)
    rw [parseStringBody.eq_def]
    rfl
  | cons c t ih =>
    intro rest
    rw [List.map_cons, List.flatten_cons, List.append_assoc]
    have ih' := ih rest
    by_cases h1 : c = '"'
    · subst h1
      rw [show escapeChar '"' = ['\\', '"'] from rfl, List.cons_append, List.cons_append,
        List.nil_append,
        parseStringBody_short (by decide : unescapeShort '"' = some '"') (by decide), ih', Option.some_bind]
    · by_cases h2 : c = '\\'
      · subst h2
        rw [show escapeChar '\\' = ['\\', '\\'] from rfl, List.cons_append, List.cons_append,
          List.nil_append,
          parseStringBody_short (by decide : unescapeShort '\\' = some '\\') (by decide), ih', Option.some_bind]
      · by_cases h3 : c = '\n'
        · subst h3
          rw [show escapeChar '\n' = ['\\', 'n'] from rfl, List.cons_append, List.cons_append,
            List.nil_append,
            parseStringBody_short (by decide : unescapeShort 'n' = some '\n') (by decide), ih', Option.some_bind]
        · by_cases h4 : c = '\r'
          · subst h4
            rw [show escapeChar '\r' = ['\\', 'r'] from rfl, List.cons_append,
              List.cons_append, List.nil_append,
              parseStringBody_short (by decide : unescapeShort 'r' = some '\r') (by decide), ih', Option.some_bind]
          · by_cases h5 : c = '\t'
            · subst h5
              rw [show escapeChar '\t' = ['\\', 't'] from rfl, List.cons_append,
                List.cons_append, List.nil_append,
                parseStringBody_short (by decide : unescapeShort 't' = some '\t') (by decide), ih', Option.some_bind]
            · by_cases h6 : c = '\x08'
              · subst h6
                rw [show escapeChar '\x08' = ['\\', 'b'] from rfl, List.cons_append,
                  List.cons_append, List.nil_append,
                  parseStringBody_short (by decide : unescapeShort 'b' = some '\x08') (by decide), ih', Option.some_bind]
              · by_cases h7 : c = '\x0c'
                · subst h7
                  rw [show escapeChar '\x0c' = ['\\', 'f'] from rfl, List.cons_append,
                    List.cons_append, List.nil_append,
                    parseStringBody_short (by decide : unescapeShort 'f' = some '\x0c') (by decide), ih', Option.some_bind]
                · by_cases h8 : c.toNat < 32
                  · have he : escapeChar c = ['\\', 'u', '0', '0',
                        Nat.digitChar (c.toNat / 16), Nat.digitChar (c.toNat % 16)] := by
                      unfold escapeChar
                      rw [if_neg h1, if_neg h2, if_neg h3, if_neg h4, if_neg h5, if_neg h6,
                        if_neg h7, if_pos h8]
                    rw [he]
                    rw [List.cons_append, List.cons_append, List.cons_append,
                      List.cons_append, List.cons_append, List.cons_append, List.nil_append]
                    have hdigit16 : ∀ x, x < 16 → hexVal (Nat.digitChar x) = some x := by
                      decide
                    have hhi := hdigit16 (c.toNat / 16) (by omega)
                    have hlo := hdigit16 (c.toNat % 16) (by omega)
                    have e : parseStringBody ('\\' :: 'u' :: '0' :: '0' ::
                        Nat.digitChar (c.toNat / 16) :: Nat.digitChar (c.toNat % 16) ::
                        ((t.map escapeChar).flatten ++ '"' :: rest)) =
                        (hexVal (Nat.digitChar (c.toNat / 16))).bind (fun hc2 =>
                          (hexVal (Nat.digitChar (c.toNat % 16))).bind (fun hd =>
                            if Nat.isValidChar (((0 * 16 + 0) * 16 + hc2) * 16 + hd) then
                              (parseStringBody ((t.map escapeChar).flatten ++ '"' :: rest)).bind
                                (fun p =>
                                  some (Char.ofNat (((0 * 16 + 0) * 16 + hc2) * 16 + hd) ::
                                    p.1, p.2))
                            else none)) := by
                      conv_lhs => rw [parseStringBody.eq_def]
                      rfl
                    rw [e, hhi, hlo]
                    have harith : ((0 * 16 + 0) * 16 + c.toNat / 16) * 16 + c.toNat % 16 =
                        c.toNat := by omega
                    show (if Nat.isValidChar (((0 * 16 + 0) * 16 + c.toNat / 16) * 16 +
                        c.toNat % 16) then _ else none) = _
                    rw [harith, if_pos (Or.inl (by omega)), ih', Option.some_bind]
                    rw [Char.ofNat_toNat]
                  · have he : escapeChar c = [c] := by
                      unfold escapeChar
                      rw [if_neg h1, if_neg h2, if_neg h3, if_neg h4, if_neg h5, if_neg h6,
                        if_neg h7, if_neg h8]
                    rw [he, List.cons_append, List.nil_append,
                      parseStringBody_cons_other h1 h2, ih', Option.some_bind]

theorem intercalate_one {α : Type} (s a : List α) : List.intercalate s [a] = a := by
  simp [List.intercalate]

theorem intercalate_two {α : Type} (s a b : List α) (t : List (List α)) :
    List.intercalate s (a :: b :: t) = a ++ s ++ List.intercalate s (b :: t) := by
  unfold List.intercalate
  rw [List.intersperse_cons₂]
  simp [List.append_assoc]

theorem natChars_head (n : Nat) :
    ∃ c t, natChars n = c :: t ∧ isDigitCh c = true := by
  obtain ⟨hne, hall⟩ := natChars_digits n
  cases h : natChars n with
  | nil => exact absurd h hne
  | cons c t =>
    exact ⟨c, t, rfl, hall c (by rw [h]; exact List.mem_cons_self c t)⟩

theorem isDigitCh_ne_specials {c : Char} (h : isDigitCh c = true) :
    c ≠ 'n' ∧ c ≠ 't' ∧ c ≠ 'f' ∧ c ≠ '"' ∧ c ≠ '[' ∧ c ≠ '-' ∧ c ≠ '\x7b' ∧
      c ≠ ']' ∧ c ≠ '\x7d' := by
  refine ⟨?_, ?_, ?_, ?_, ?_, ?_, ?_, ?_, ?_⟩ <;>
    { intro he; rw [he] at h; exact absurd h (by decide) }

theorem dumpVal_head (v : JVal) :
    ∃ c t, dumpVal v = c :: t ∧ isWs c = false ∧ c ≠ ']' ∧ c ≠ '\x7d' := by
  cases v with
  | null => exact ⟨'n', _, rfl, by decide, by decide, by decide⟩
  | bool b =>
    cases b with
    | false => exact ⟨'f', _, rfl, by decide, by decide, by decide⟩
    | true => exact ⟨'t', _, rfl, by decide, by decide, by decide⟩
  | num n =>
    by_cases hn : n < 0
    · refine ⟨'-', natChars n.natAbs, ?_, by decide, by decide, by decide⟩
      show intChars n = _
      unfold intChars
      rw [if_pos hn]
    · obtain ⟨c, t, he, hd⟩ := natChars_head n.toNat
      obtain ⟨_, _, _, _, _, _, _, h8, h9⟩ := isDigitCh_ne_specials hd
      refine ⟨c, t, ?_, isDigitCh_notWs hd, h8, h9⟩
      show intChars n = _
      unfold intChars
      rw [if_neg hn, he]
  | str s => exact ⟨'"', _, rfl, by decide, by decide, by decide⟩
  | arr l => exact ⟨'[', _, rfl, by decide, by decide, by decide⟩
  | obj l => exact ⟨'\x7b', _, rfl, by decide, by decide, by decide⟩

theorem skipWs_dump (v : JVal) (X : List Char) :
    skipWs (dumpVal v ++ X) = dumpVal v ++ X := by
  obtain ⟨c, t, he, hws, _, _⟩ := dumpVal_head v
  rw [he, List.cons_append, skipWs_cons_notWs hws]

theorem intercalate_dump_head (w : JVal) (ws : List JVal) :
    ∃ c t, List.intercalate [',', ' '] (dumpElems (w :: ws)) = c :: t ∧
      isWs c = false ∧ c ≠ ']' ∧ c ≠ '\x7d' := by
  obtain ⟨c, t0, he, h1, h2, h3⟩ := dumpVal_head w
  cases ws with
  | nil =>
    refine ⟨c, t0, ?_, h1, h2, h3⟩
    rw [show dumpElems [w] = [dumpVal w] from rfl, intercalate_one, he]
  | cons w2 ws2 =>
    refine ⟨c, t0 ++ ([',', ' '] ++
      List.intercalate [',', ' '] (dumpElems (w2 :: ws2))), ?_, h1, h2, h3⟩
    rw [show dumpElems (w :: w2 :: ws2) = dumpVal w :: dumpVal w2 :: dumpElems ws2 from rfl,
      intercalate_two, he,
      show dumpVal w2 :: dumpElems ws2 = dumpElems (w2 :: ws2) from rfl]
    simp [List.append_assoc]

theorem skipWs_intercalate_elems (w : JVal) (ws : List JVal) (X : List Char) :
    skipWs (List.intercalate [',', ' '] (dumpElems (w :: ws)) ++ X) =
      List.intercalate [',', ' '] (dumpElems (w :: ws)) ++ X := by
  obtain ⟨c, t, he, hws, _, _⟩ := intercalate_dump_head w ws
  rw [he, List.cons_append, skipWs_cons_notWs hws]

theorem memberChars_append (q : String × JVal) (X : List Char) :
    memberChars q ++ X =
      '"' :: ((q.1.data.map escapeChar).flatten ++
        '"' :: ':' :: ' ' :: (dumpVal q.2 ++ X)) := by
  unfold memberChars dumpStringChars
  simp [List.cons_append, List.append_assoc]

theorem intercalate_members_head (q : String × JVal) (ql : List (String × JVal))
    (X : List Char) :
    ∃ t, List.intercalate [',', ' '] ((q :: ql).map memberChars) ++ X = '"' :: t := by
  cases ql with
  | nil =>
    refine ⟨(q.1.data.map escapeChar).flatten ++ '"' :: ':' :: ' ' ::
      (dumpVal q.2 ++ X), ?_⟩
    rw [List.map_singleton, intercalate_one, memberChars_append]
  | cons q2 ql2 =>
    refine ⟨(q.1.data.map escapeChar).flatten ++ '"' :: ':' :: ' ' ::
      (dumpVal q.2 ++ ([',', ' '] ++
        (List.intercalate [',', ' '] (memberChars q2 :: ql2.map memberChars) ++ X))), ?_⟩
    rw [List.map_cons, List.map_cons, intercalate_two, List.append_assoc,
      List.append_assoc, memberChars_append]

theorem skipWs_intercalate_members (q : String × JVal) (ql : List (String × JVal))
    (X : List Char) :
    skipWs (List.intercalate [',', ' '] ((q :: ql).map memberChars) ++ X) =
      List.intercalate [',', ' '] ((q :: ql).map memberChars) ++ X := by
  obtain ⟨t, ht⟩ := intercalate_members_head q ql X
  rw [ht, skipWs_cons_notWs (by decide)]

theorem parseElems_roundtrip :
    ∀ (l : List JVal), (∀ v ∈ l, RoundVal v) → l ≠ [] →
      ∀ (fuel : Nat) (cs rest : List Char), sizeJList l ≤ fuel →
        skipWs cs = List.intercalate [',', ' '] (dumpElems l) ++ ']' :: rest →
        parseElems fuel cs = some (canonList l, rest) := by
  intro l
  induction l with
  | nil => intro _ hne; exact absurd rfl hne
  | cons v vs ih =>
    intro hP _ fuel cs rest hfuel hskip
    have hv : RoundVal v := hP v (List.mem_cons_self v vs)
    have h1s : sizeJList (v :: vs) = 1 + sizeJ v + sizeJList vs := rfl
    rw [h1s] at hfuel
    cases fuel with
    | zero => exact absurd hfuel (by omega)
    | succ f =>
      rw [parseElems.eq_def]
      dsimp only
      cases vs with
      | nil =>
        rw [show dumpElems [v] = [dumpVal v] from rfl, intercalate_one] at hskip
        rw [hv f cs (']' :: rest) (by omega) rfl hskip, Option.bind_eq_bind,
          Option.some_bind]
        dsimp only
        rw [skipWs_cons_notWs (by decide)]
        rfl
      | cons w ws =>
        rw [show dumpElems (v :: w :: ws) = dumpVal v :: dumpVal w :: dumpElems ws from rfl,
          intercalate_two,
          show dumpVal w :: dumpElems ws = dumpElems (w :: ws) from rfl,
          List.append_assoc, List.append_assoc] at hskip
        have hskip2 : skipWs cs = dumpVal v ++ (',' :: ' ' ::
            (List.intercalate [',', ' '] (dumpElems (w :: ws)) ++ ']' :: rest)) := hskip
        rw [hv f cs (',' :: ' ' ::
            (List.intercalate [',', ' '] (dumpElems (w :: ws)) ++ ']' :: rest))
            (by omega) rfl hskip2, Option.bind_eq_bind, Option.some_bind]
        dsimp only
        rw [skipWs_cons_notWs (by decide)]
        show (parseElems f
            (' ' :: (List.intercalate [',', ' '] (dumpElems (w :: ws)) ++ ']' :: rest))).bind
            (fun y => some (canon v :: y.1, y.2)) = some (canonList (v :: w :: ws), rest)
        rw [ih (fun x hx => hP x (List.mem_cons_of_mem v hx)) (by simp) f
            (' ' :: (List.intercalate [',', ' '] (dumpElems (w :: ws)) ++ ']' :: rest)) rest
            (by have := sizeJ_pos v
                have h2s : sizeJList (w :: ws) = 1 + sizeJ w + sizeJList ws := rfl
                omega)
            (by rw [skipWs_cons_ws (by decide)]
                exact skipWs_intercalate_elems w ws (']' :: rest))]
        rfl

theorem parseMembers_roundtrip :
    ∀ (l : List (String × JVal)), (∀ p ∈ l, RoundVal p.2) → l ≠ [] →
      ∀ (fuel : Nat) (cs rest : List Char), sizeJFields l ≤ fuel →
        skipWs cs = List.intercalate [',', ' '] (l.map memberChars) ++ '\x7d' :: rest →
        parseMembers fuel cs = some (canonFields l, rest) := by
  intro l
  induction l with
  | nil => intro _ hne; exact absurd rfl hne
  | cons q ql ih =>
    intro hP _ fuel cs rest hfuel hskip
    have hq : RoundVal q.2 := hP q (List.mem_cons_self q ql)
    have h1s : sizeJFields (q :: ql) = 1 + sizeJ q.2 + sizeJFields ql := rfl
    rw [h1s] at hfuel
    cases fuel with
    | zero => exact absurd hfuel (by omega)
    | succ f =>
      rw [parseMembers.eq_def]
      dsimp only
      cases ql with
      | nil =>
        rw [List.map_singleton, intercalate_one, memberChars_append] at hskip
        rw [hskip]
        show (parseStringBody ((q.1.data.map escapeChar).flatten ++
            '"' :: ':' :: ' ' :: (dumpVal q.2 ++ '\x7d' :: rest))).bind (fun k =>
          match skipWs k.2 with
          | ':' :: r2 => (parseVal f r2).bind (fun y =>
              match skipWs y.2 with
              | ',' :: r4 => (parseMembers f r4).bind (fun ms =>
                  some ((String.mk k.1, y.1) :: ms.1, ms.2))
              | '\x7d' :: r4 => some ([(String.mk k.1, y.1)], r4)
              | _ => none)
          | _ => none) = some (canonFields [q], rest)
        rw [parseStringBody_roundtrip]
        show (parseVal f (' ' :: (dumpVal q.2 ++ '\x7d' :: rest))).bind (fun y =>
          match skipWs y.2 with
          | ',' :: r4 => (parseMembers f r4).bind (fun ms =>
              some ((String.mk q.1.data, y.1) :: ms.1, ms.2))
          | '\x7d' :: r4 => some ([(String.mk q.1.data, y.1)], r4)
          | _ => none) = some (canonFields [q], rest)
        rw [hq f (' ' :: (dumpVal q.2 ++ '\x7d' :: rest)) ('\x7d' :: rest)
            (by omega) rfl
            (by rw [skipWs_cons_ws (by decide)]
                exact skipWs_dump q.2 ('\x7d' :: rest))]
        rfl
      | cons q2 ql2 =>
        rw [List.map_cons, List.map_cons, intercalate_two, List.append_assoc,
          List.append_assoc, memberChars_append] at hskip
        have hskip2 : skipWs cs = '"' :: ((q.1.data.map escapeChar).flatten ++
            '"' :: ':' :: ' ' :: (dumpVal q.2 ++ ',' :: ' ' ::
              (List.intercalate [',', ' '] ((q2 :: ql2).map memberChars) ++
                '\x7d' :: rest))) := hskip
        rw [hskip2]
        show (parseStringBody ((q.1.data.map escapeChar).flatten ++
            '"' :: ':' :: ' ' :: (dumpVal q.2 ++ ',' :: ' ' ::
              (List.intercalate [',', ' '] ((q2 :: ql2).map memberChars) ++
                '\x7d' :: rest)))).bind (fun k =>
          match skipWs k.2 with
          | ':' :: r2 => (parseVal f r2).bind (fun y =>
              match skipWs y.2 with
              | ',' :: r4 => (parseMembers f r4).bind (fun ms =>
                  some ((String.mk k.1, y.1) :: ms.1, ms.2))
              | '\x7d' :: r4 => some ([(String.mk k.1, y.1)], r4)
              | _ => none)
          | _ => none) = some (canonFields (q :: q2 :: ql2), rest)
        rw [parseStringBody_roundtrip]
        show (parseVal f (' ' :: (dumpVal q.2 ++ ',' :: ' ' ::
            (List.intercalate [',', ' '] ((q2 :: ql2).map memberChars) ++
              '\x7d' :: rest)))).bind (fun y =>
          match skipWs y.2 with
          | ',' :: r4 => (parseMembers f r4).bind (fun ms =>
              some ((String.mk q.1.data, y.1) :: ms.1, ms.2))
          | '\x7d' :: r4 => some ([(String.mk q.1.data, y.1)], r4)
          | _ => none) = some (canonFields (q :: q2 :: ql2), rest)
        rw [hq f (' ' :: (dumpVal q.2 ++ ',' :: ' ' ::
              (List.intercalate [',', ' '] ((q2 :: ql2).map memberChars) ++
                '\x7d' :: rest)))
            (',' :: ' ' ::
              (List.intercalate [',', ' '] ((q2 :: ql2).map memberChars) ++
                '\x7d' :: rest))
            (by omega) rfl
            (by rw [skipWs_cons_ws (by decide)]
                exact skipWs_dump q.2 _)]
        show (parseMembers f (' ' :: (List.intercalate [',', ' ']
            ((q2 :: ql2).map memberChars) ++ '\x7d' :: rest))).bind (fun ms =>
          some ((String.mk q.1.data, canon q.2) :: ms.1, ms.2)) =
          some (canonFields (q :: q2 :: ql2), rest)
        rw [ih (fun x hx => hP x (List.mem_cons_of_mem q hx)) (by simp) f
            (' ' :: (List.intercalate [',', ' '] ((q2 :: ql2).map memberChars) ++
              '\x7d' :: rest)) rest
            (by have := sizeJ_pos q.2
                have h2s : sizeJFields (q2 :: ql2) = 1 + sizeJ q2.2 + sizeJFields ql2 := rfl
                omega)
            (by rw [skipWs_cons_ws (by decide)]
                exact skipWs_intercalate_members q2 ql2 ('\x7d' :: rest))]
        rfl

theorem roundVal_all : ∀ v : JVal, RoundVal v := by
  refine JVal.inductionOn ?_ ?_ ?_ ?_ ?_ ?_
  · -- null
    intro fuel cs rest hfuel hrest hskip
    cases fuel with
    | zero => have := sizeJ_pos JVal.null; omega
    | succ f =>
      rw [parseVal.eq_def]
      dsimp only
      rw [hskip]
      rfl
  · -- bool
    intro b fuel cs rest hfuel hrest hskip
    cases fuel with
    | zero => have := sizeJ_pos (JVal.bool b); omega
    | succ f =>
      rw [parseVal.eq_def]
      dsimp only
      rw [hskip]
      cases b with
      | false => rfl
      | true => rfl
  · -- num
    intro n fuel cs rest hfuel hrest hskip
    cases fuel with
    | zero => have := sizeJ_pos (JVal.num n); omega
    | succ f =>
      by_cases hn : n < 0
      · have hd : dumpVal (JVal.num n) = '-' :: natChars n.natAbs := by
          show intChars n = _
          unfold intChars
          rw [if_pos hn]
        rw [hd, List.cons_append] at hskip
        rw [parseVal.eq_def]
        dsimp only
        rw [hskip]
        dsimp only
        rw [if_neg (by decide : ¬('-' : Char) = 'n'),
          if_neg (by decide : ¬('-' : Char) = 't'),
          if_neg (by decide : ¬('-' : Char) = 'f'),
          if_neg (by decide : ¬('-' : Char) = '"'),
          if_neg (by decide : ¬('-' : Char) = '['),
          if_pos (rfl : ('-' : Char) = '-'),
          parseNatLit_natChars n.natAbs rest hrest]
        show some (JVal.num (-(n.natAbs : Int)), rest) = some (JVal.num n, rest)
        have hval : -((n.natAbs : Int)) = n := by omega
        rw [hval]
      · obtain ⟨c, t, he, hdc⟩ := natChars_head n.toNat
        obtain ⟨e1, e2, e3, e4, e5, e6, e7, _, _⟩ := isDigitCh_ne_specials hdc
        have hd : dumpVal (JVal.num n) = c :: t := by
          show intChars n = _
          unfold intChars
          rw [if_neg hn, he]
        rw [hd, List.cons_append] at hskip
        rw [parseVal.eq_def]
        dsimp only
        rw [hskip]
        dsimp only
        rw [if_neg e1, if_neg e2, if_neg e3, if_neg e4, if_neg e5, if_neg e6, if_neg e7,
          if_pos hdc,
          show c :: (t ++ rest) = (c :: t) ++ rest from rfl, ← he,
          parseNatLit_natChars n.toNat rest hrest]
        show some (JVal.num (n.toNat : Int), rest) = some (JVal.num n, rest)
        have hval : ((n.toNat : Int)) = n := by omega
        rw [hval]
  · -- str
    intro s fuel cs rest hfuel hrest hskip
    cases fuel with
    | zero => have := sizeJ_pos (JVal.str s); omega
    | succ f =>
      have hd : dumpVal (JVal.str s) ++ rest =
          '"' :: ((s.data.map escapeChar).flatten ++ '"' :: rest) := by
        show ('"' :: ((s.data.map escapeChar).flatten ++ ['"'])) ++ rest = _
        rw [List.cons_append, List.append_assoc, List.singleton_append]
      rw [hd] at hskip
      rw [parseVal.eq_def]
      dsimp only
      rw [hskip]
      dsimp only
      rw [if_neg (by decide : ¬('"' : Char) = 'n'),
        if_neg (by decide : ¬('"' : Char) = 't'),
        if_neg (by decide : ¬('"' : Char) = 'f'),
        if_pos (rfl : ('"' : Char) = '"'),
        parseStringBody_roundtrip]
      rfl
  · -- arr
    intro l hl fuel cs rest hfuel hrest hskip
    cases fuel with
    | zero => have := sizeJ_pos (JVal.arr l); omega
    | succ f =>
      cases l with
      | nil =>
        have hd : dumpVal (JVal.arr []) ++ rest = '[' :: ']' :: rest := rfl
        rw [hd] at hskip
        rw [parseVal.eq_def]
        dsimp only
        rw [hskip]
        rfl
      | cons v vs =>
        have hd : dumpVal (JVal.arr (v :: vs)) ++ rest =
            '[' :: (List.intercalate [',', ' '] (dumpElems (v :: vs)) ++ ']' :: rest) := by
          show ('[' :: (List.intercalate [',', ' '] (dumpElems (v :: vs)) ++ [']'])) ++
              rest = _
          rw [List.cons_append, List.append_assoc, List.singleton_append]
        rw [hd] at hskip
        rw [parseVal.eq_def]
        dsimp only
        rw [hskip]
        dsimp only
        rw [if_neg (by decide : ¬('[' : Char) = 'n'),
          if_neg (by decide : ¬('[' : Char) = 't'),
          if_neg (by decide : ¬('[' : Char) = 'f'),
          if_neg (by decide : ¬('[' : Char) = '"'),
          if_pos (rfl : ('[' : Char) = '[')]
        obtain ⟨c2, t2, he2, hws2, hne2, _⟩ := intercalate_dump_head v vs
        have hel := parseElems_roundtrip (v :: vs) hl (by simp) f
          (List.intercalate [',', ' '] (dumpElems (v :: vs)) ++ ']' :: rest) rest
          (by have h2s : sizeJ (JVal.arr (v :: vs)) = 1 + sizeJList (v :: vs) := rfl
              omega)
          (skipWs_intercalate_elems v vs (']' :: rest))
        rw [he2, List.cons_append, skipWs_cons_notWs hws2]
        dsimp only
        rw [if_neg hne2, ← List.cons_append, ← he2, hel]
        rfl
  · -- obj
    intro l hl fuel cs rest hfuel hrest hskip
    cases fuel with
    | zero => have := sizeJ_pos (JVal.obj l); omega
    | succ f =>
      cases l with
      | nil =>
        have hd : dumpVal (JVal.obj []) ++ rest = '\x7b' :: '\x7d' :: rest := rfl
        rw [hd] at hskip
        rw [parseVal.eq_def]
        dsimp only
        rw [hskip]
        rfl
      | cons p ps =>
        have hM : (sortPairs (dumpMembers (p :: ps))).map Prod.snd =
            (sortPairs (p :: ps)).map memberChars := by
          rw [dumpMembers_eq_map,
            sortPairs_map_comm (fun r => (r.1, memberChars r)) (fun r => rfl),
            List.map_map]
          rfl
        have hnil : sortPairs (p :: ps) ≠ [] := by
          intro h
          have hp := (sortPairs_perm (p :: ps)).length_eq
          rw [h] at hp
          simp at hp
        obtain ⟨q, ql, hq⟩ : ∃ q ql, sortPairs (p :: ps) = q :: ql := by
          cases hs : sortPairs (p :: ps) with
          | nil => exact absurd hs hnil
          | cons q ql => exact ⟨q, ql, rfl⟩
        have hd : dumpVal (JVal.obj (p :: ps)) ++ rest =
            '\x7b' :: (List.intercalate [',', ' '] ((q :: ql).map memberChars) ++
              '\x7d' :: rest) := by
          show (lbrace :: (List.intercalate [',', ' ']
              ((sortPairs (dumpMembers (p :: ps))).map Prod.snd) ++ [rbrace])) ++ rest = _
          rw [hM, hq, List.cons_append, List.append_assoc, List.singleton_append]
          rfl
        rw [hd] at hskip
        rw [parseVal.eq_def]
        dsimp only
        rw [hskip]
        dsimp only
        rw [if_neg (by decide : ¬('\x7b' : Char) = 'n'),
          if_neg (by decide : ¬('\x7b' : Char) = 't'),
          if_neg (by decide : ¬('\x7b' : Char) = 'f'),
          if_neg (by decide : ¬('\x7b' : Char) = '"'),
          if_neg (by decide : ¬('\x7b' : Char) = '['),
          if_neg (by decide : ¬('\x7b' : Char) = '-'),
          if_pos (rfl : ('\x7b' : Char) = '\x7b')]
        obtain ⟨t2, ht2⟩ := intercalate_members_head q ql ('\x7d' :: rest)
        have hmem := parseMembers_roundtrip (q :: ql)
          (fun x hx => hl x ((sortPairs_perm (p :: ps)).mem_iff.mp (by rw [hq]; exact hx)))
          (by simp) f
          (List.intercalate [',', ' '] ((q :: ql).map memberChars) ++ '\x7d' :: rest) rest
          (by have h2s : sizeJ (JVal.obj (p :: ps)) = 1 + sizeJFields (p :: ps) := rfl
              have h3s : sizeJFields (q :: ql) = sizeJFields (p :: ps) := by
                rw [← hq]
                exact sizeJFields_perm (sortPairs_perm (p :: ps))
              omega)
          (skipWs_intercalate_members q ql ('\x7d' :: rest))
        rw [ht2, skipWs_cons_notWs (by decide)]
        dsimp only
        rw [if_neg (by decide : ¬('"' : Char) = '\x7d'), ← ht2, hmem]
        have hcf : canonFields (q :: ql) = sortPairs (canonFields (p :: ps)) := by
          rw [← hq, canonFields_eq_map, canonFields_eq_map,
            sortPairs_map_comm (fun r => (r.1, canon r.2)) (fun r => rfl)]
        rw [hcf]
        rfl

theorem dumps_inj_canon {a b : JVal} (h : dumps a = dumps b) : canon a = canon b := by
  have hdump : dumpVal a = dumpVal b := congrArg String.data h
  have hska : skipWs (dumpVal a) = dumpVal a ++ [] := by
    rw [List.append_nil]
    have h2 := skipWs_dump a []
    rw [List.append_nil] at h2
    exact h2
  have hskb : skipWs (dumpVal b) = dumpVal b ++ [] := by
    rw [List.append_nil]
    have h2 := skipWs_dump b []
    rw [List.append_nil] at h2
    exact h2
  have ha := roundVal_all a (sizeJ a + sizeJ b) (dumpVal a) [] (by omega) rfl hska
  have hb := roundVal_all b (sizeJ a + sizeJ b) (dumpVal b) [] (by omega) rfl hskb
  rw [hdump] at ha
  exact congrArg Prod.fst (Option.some.inj (ha.symm.trans hb))

theorem canon_dumps_eq {a b : JVal} (h : canon a = canon b) : dumps a = dumps b := by
  rw [← dumps_canon a, ← dumps_canon b, h]

theorem rekeyList_refl : ∀ (l : List JVal), (∀ v ∈ l, ReKey v v) → ReKeyList l l := by
  intro l
  induction l with
  | nil => intro _; exact ReKeyList.nil
  | cons v t ih =>
    intro h
    exact ReKeyList.cons (h v (List.mem_cons_self v t))
      (ih (fun x hx => h x (List.mem_cons_of_mem v hx)))

theorem rekeyFields_refl : ∀ (l : List (String × JVal)), (∀ p ∈ l, ReKey p.2 p.2) →
    ReKeyFields l l := by
  intro l
  induction l with
  | nil => intro _; exact ReKeyFields.nil
  | cons p t ih =>
    intro h
    exact ReKeyFields.cons (h p (List.mem_cons_self p t))
      (ih (fun x hx => h x (List.mem_cons_of_mem p hx)))

theorem rekey_refl : ∀ v : JVal, ReKey v v := by
  refine JVal.inductionOn ReKey.null ReKey.bool ReKey.num ReKey.str ?_ ?_
  · exact fun l h => ReKey.arr (rekeyList_refl l h)
  · exact fun l h => ReKey.obj (rekeyFields_refl l h) (List.Perm.refl l)

theorem rekeyFields_keys : ∀ {l m : List (String × JVal)}, ReKeyFields l m →
    l.map Prod.fst = m.map Prod.fst := by
  intro l
  induction l with
  | nil => intro m h; cases h; rfl
  | cons p t ih =>
    intro m h
    cases h with
    | cons h1 h2 => simp [ih h2]

theorem distinctKeys_nodup : ∀ ks : List String, distinctKeys ks = true → ks.Nodup := by
  intro ks
  induction ks with
  | nil => intro _; exact List.nodup_nil
  | cons k t ih =>
    intro h
    rw [show distinctKeys (k :: t) = (!t.contains k && distinctKeys t) from rfl,
      Bool.and_eq_true] at h
    obtain ⟨h1, h2⟩ := h
    refine List.nodup_cons.mpr ⟨?_, ih h2⟩
    intro hm
    simp at h1
    exact h1 hm

theorem canonFields_keys (l : List (String × JVal)) :
    (canonFields l).map Prod.fst = l.map Prod.fst := by
  rw [canonFields_eq_map, List.map_map]
  rfl

theorem rekey_canon : ∀ (a b : JVal), ReKey a b → noDupKeys a = true →
    canon a = canon b := by
  have H : ∀ n a b, sizeJ a ≤ n → ReKey a b → noDupKeys a = true → canon a = canon b := by
    intro n
    induction n with
    | zero =>
      intro a b hsz _ _
      have := sizeJ_pos a
      omega
    | succ n ih =>
      have auxL : ∀ xs ys, ReKeyList xs ys → sizeJList xs ≤ n →
          noDupKeysList xs = true → canonList xs = canonList ys := by
        intro xs
        induction xs with
        | nil => intro ys h _ _; cases h; rfl
        | cons x xt ihx =>
          intro ys h hs hd
          cases h with
          | cons h1 h2 =>
            rename_i y ys2
            rw [show sizeJList (x :: xt) = 1 + sizeJ x + sizeJList xt from rfl] at hs
            rw [show noDupKeysList (x :: xt) = (noDupKeys x && noDupKeysList xt) from rfl,
              Bool.and_eq_true] at hd
            show canon x :: canonList xt = canon y :: canonList ys2
            rw [ih x y (by omega) h1 hd.1, ihx ys2 h2 (by omega) hd.2]
      have auxF : ∀ xs ys, ReKeyFields xs ys → sizeJFields xs ≤ n →
          noDupKeysFields xs = true → canonFields xs = canonFields ys := by
        intro xs
        induction xs with
        | nil => intro ys h _ _; cases h; rfl
        | cons x xt ihx =>
          intro ys h hs hd
          cases h with
          | cons h1 h2 =>
            rename_i k xv yv m2
            rw [show sizeJFields ((k, xv) :: xt) = 1 + sizeJ xv + sizeJFields xt from
              rfl] at hs
            rw [show noDupKeysFields ((k, xv) :: xt) =
              (noDupKeys xv && noDupKeysFields xt) from rfl, Bool.and_eq_true] at hd
            show (k, canon xv) :: canonFields xt = (k, canon yv) :: canonFields m2
            rw [ih xv yv (by omega) h1 hd.1, ihx m2 h2 (by omega) hd.2]
      intro a b hsz hre hnd
      cases hre with
      | null => rfl
      | bool b0 => rfl
      | num n0 => rfl
      | str s0 => rfl
      | arr hx =>
        rename_i xs ys
        show JVal.arr (canonList xs) = JVal.arr (canonList ys)
        rw [auxL xs ys hx
          (by have h2 : sizeJ (JVal.arr xs) = 1 + sizeJList xs := rfl
              omega)
          hnd]
      | obj hf hperm =>
        rename_i l0 m0 l1
        have hnd2 : distinctKeys (l0.map Prod.fst) = true ∧ noDupKeysFields l0 = true := by
          have h0 : noDupKeys (JVal.obj l0) =
              (distinctKeys (l0.map Prod.fst) && noDupKeysFields l0) := rfl
          rw [h0, Bool.and_eq_true] at hnd
          exact hnd
        have hszf : sizeJFields l0 ≤ n := by
          have h2 : sizeJ (JVal.obj l0) = 1 + sizeJFields l0 := rfl
          omega
        have hcf : canonFields l0 = canonFields m0 := auxF l0 m0 hf hszf hnd2.2
        show JVal.obj (sortPairs (canonFields l0)) = JVal.obj (sortPairs (canonFields l1))
        rw [hcf]
        have hpermc : (canonFields m0).Perm (canonFields l1) := by
          rw [canonFields_eq_map, canonFields_eq_map]
          exact hperm.map (fun r => (r.1, canon r.2))
        have hnodup : ((sortPairs (canonFields m0)).map Prod.fst).Nodup := by
          have hpk : ((sortPairs (canonFields m0)).map Prod.fst).Perm
              (l0.map Prod.fst) := by
            have p1 := (sortPairs_perm (canonFields m0)).map Prod.fst
            rw [canonFields_keys] at p1
            rw [rekeyFields_keys hf]
            exact p1
          exact (hpk.nodup_iff).mpr (distinctKeys_nodup _ hnd2.1)
        rw [sorted_perm_nodup_eq (sortPairs (canonFields m0)) (sortPairs (canonFields l1))
          ((sortPairs_perm _).trans (hpermc.trans (sortPairs_perm _).symm))
          (sortPairs_sorted _) (sortPairs_sorted _) hnodup]
  exact fun a b => H (sizeJ a) a b (le_refl _)

/-- C2: the reconciliation diff (`compare_objects`, crawl_movies.py:81-89, used
at crawl_movies.py:166 to decide `skipped`) reports two documents unchanged
exactly when their `sort_keys=True, ensure_ascii=False` JSON serializations are
identical strings; equivalently, exactly when their canonical forms (object
keys recursively sorted, array order and string content preserved) coincide.
Hence the verdict is invariant under any reordering of object keys in either
input (`ReKey`, for inputs with duplicate-free keys, as Python dicts are),
while any difference in sequence order or in exact text changes the canonical
form and so still separates the inputs. -/
theorem c2_unchanged_iff (a b a2 b2 : JVal)
    (ha : ReKey a a2) (hb : ReKey b b2)
    (hnda : noDupKeys a = true) (hndb : noDupKeys b = true) :
    (compare_objects a b = true ↔ dumps a = dumps b) ∧
    compare_objects a2 b2 = compare_objects a b ∧
    (compare_objects a b = true ↔ canon a = canon b) := by
  have hiff : ∀ x y : JVal, compare_objects x y = true ↔ dumps x = dumps y := by
    intro x y
    simp [compare_objects]
  refine ⟨hiff a b, ?_, ?_⟩
  · have h1 : dumps a2 = dumps a := (canon_dumps_eq (rekey_canon a a2 ha hnda)).symm
    have h2 : dumps b2 = dumps b := (canon_dumps_eq (rekey_canon b b2 hb hndb)).symm
    unfold compare_objects
    rw [h1, h2]
  · constructor
    · intro h
      exact dumps_inj_canon ((hiff a b).mp h)
    · intro h
      exact (hiff a b).mpr (canon_dumps_eq h)

theorem c2_unchanged_iff_witness :
    (compare_objects (JVal.obj [("k", JVal.str "x"), ("m", JVal.str "y")])
        (JVal.obj [("k", JVal.str "z")]) = true ↔
      dumps (JVal.obj [("k", JVal.str "x"), ("m", JVal.str "y")]) =
        dumps (JVal.obj [("k", JVal.str "z")])) ∧
    compare_objects (JVal.obj [("m", JVal.str "y"), ("k", JVal.str "x")])
        (JVal.obj [("k", JVal.str "z")]) =
      compare_objects (JVal.obj [("k", JVal.str "x"), ("m", JVal.str "y")])
        (JVal.obj [("k", JVal.str "z")]) ∧
    (compare_objects (JVal.obj [("k", JVal.str "x"), ("m", JVal.str "y")])
        (JVal.obj [("k", JVal.str "z")]) = true ↔
      canon (JVal.obj [("k", JVal.str "x"), ("m", JVal.str "y")]) =
        canon (JVal.obj [("k", JVal.str "z")])) :=
  c2_unchanged_iff
    (JVal.obj [("k", JVal.str "x"), ("m", JVal.str "y")])
    (JVal.obj [("k", JVal.str "z")])
    (JVal.obj [("m", JVal.str "y"), ("k", JVal.str "x")])
    (JVal.obj [("k", JVal.str "z")])
    (ReKey.obj
      (rekeyFields_refl [("k", JVal.str "x"), ("m", JVal.str "y")]
        (fun p _ => rekey_refl p.2))
      (List.Perm.swap ("m", JVal.str "y") ("k", JVal.str "x") []))
    (rekey_refl (JVal.obj [("k", JVal.str "z")]))
    (by decide) (by decide)
